import Mathlib

/-! # Figma variables generator

A shallow embedding of `src/generators/figma/figmaGenerator.js`: the three value
transforms (`figma/color`, `figma/dimension`, `figma/fontWeight`), the reference
transform, the `figma/variables` formatter, `getFigmaVariableType`, and the
configuration that `main` hands to Style Dictionary.

Conventions of the embedding.

* JavaScript numbers are `JSNumber`: `NaN`, the two infinities, and finite values
  carried as rationals.  What `parseFloat` and `parseInt` read is rounded to binary64
  by `toNumber` (nearest, ties to even, an infinity beyond the range); the division of
  a color channel by 255 is exact, and the sign of zero is not tracked.
* JavaScript strings are Lean strings, handled through their character lists.
* Token values are `JSValue`: what a JSON token file can hold, `undefined` for a
  missing property, and the built-in functions that a property lookup on an object
  literal can reach through `Object.prototype`.
* A thrown `TypeError` is the `Except.error` outcome.
* Calls to `logger` only print; they are left out.
* What the libraries and the engine compute outside this file (the `tinycolor2`
  parser, `Number::toString`) is a parameter, `Runtime`.  Style Dictionary itself (how
  it finds, merges and transforms tokens) is not modelled.
* The formatter result is the `collections` array handed to `JSON.stringify`.
-/

namespace FigmaGenerator

/-! ## Values -/

/-- A JavaScript number: `NaN`, `Infinity`, `-Infinity`, or a finite value. -/
inductive JSNumber where
  | nan
  | posInf
  | negInf
  | fin (q : ℚ)
  deriving DecidableEq

namespace JSNumber

/-- The JavaScript operator `x / y` (the two zeros are identified, as `+0`). -/
def div : JSNumber → JSNumber → JSNumber
  | nan, _ => nan
  | _, nan => nan
  | posInf, posInf => nan
  | posInf, negInf => nan
  | negInf, posInf => nan
  | negInf, negInf => nan
  | posInf, fin d => if d < 0 then negInf else posInf
  | negInf, fin d => if d < 0 then posInf else negInf
  | fin _, posInf => fin 0
  | fin _, negInf => fin 0
  | fin q, fin d =>
    if d = 0 then (if q = 0 then nan else if q < 0 then negInf else posInf)
    else fin (q / d)

end JSNumber

/-- A JavaScript value as it can occur in a token or in an emitted variable. -/
inductive JSValue where
  | undefined
  | null
  | bool (b : Bool)
  | num (n : JSNumber)
  | str (s : String)
  | arr (xs : List JSValue)
  | obj (fields : List (String × JSValue))
  | fn (name : String)

/-- The only exception the modelled code can raise. -/
inductive JSError where
  | typeError
  deriving DecidableEq

namespace JSValue

/-- The abstract operation `ToBoolean`, which decides `!value`, `a && b`, `a || b`. -/
def toBoolean : JSValue → Bool
  | undefined => false
  | null => false
  | bool b => b
  | num .nan => false
  | num (.fin q) => decide (q ≠ 0)
  | num _ => true
  | str s => !s.data.isEmpty
  | arr _ => true
  | obj _ => true
  | fn _ => true

/-- The operator `typeof`. -/
def typeof : JSValue → String
  | undefined => "undefined"
  | null => "object"
  | bool _ => "boolean"
  | num _ => "number"
  | str _ => "string"
  | arr _ => "object"
  | obj _ => "object"
  | fn _ => "function"

/-- The test `v === s` against a string literal `s`. -/
def strictEqStr : JSValue → String → Bool
  | str t, s => t == s
  | _, _ => false

/-- Property read `o[key]` on a plain object with the given own fields. -/
def getField (fields : List (String × JSValue)) (key : String) : Option JSValue :=
  fields.lookup key

end JSValue

/-- The result of `tinycolor(x).toRgb()`. -/
structure Rgba where
  r : JSNumber
  g : JSNumber
  b : JSNumber
  a : JSNumber

/-- What the engine and the `tinycolor2` library supply. -/
structure Runtime where
  /-- The composite `tinycolor(x).toRgb()`. -/
  tinycolorToRgb : JSValue → Rgba
  /-- The operation `Number::toString` in radix 10. -/
  numberToString : JSNumber → String

/-! ## String built-ins -/

/-- Replace the first occurrence of `pat` in `s` by `rep`. -/
def replaceFirst : List Char → List Char → List Char → List Char
  | [], pat, rep => if pat.isEmpty then rep else []
  | c :: cs, pat, rep =>
    if pat.isPrefixOf (c :: cs) then rep ++ (c :: cs).drop pat.length
    else c :: replaceFirst cs pat rep

/-- The method `String.prototype.replace` with a string pattern and a replacement
without `$`. -/
def jsReplace (s pat rep : String) : String :=
  ⟨replaceFirst s.data pat.data rep.data⟩

/-- Whether `sub` occurs in `cs` as a contiguous run. -/
def includesChars : List Char → List Char → Bool
  | [], sub => sub.isEmpty
  | c :: cs, sub => sub.isPrefixOf (c :: cs) || includesChars cs sub

/-- The method `String.prototype.includes`. -/
def jsIncludes (s sub : String) : Bool :=
  includesChars s.data sub.data

/-- The method `String.prototype.startsWith`. -/
def jsStartsWith (s pre : String) : Bool :=
  pre.data.isPrefixOf s.data

/-- The method `Array.prototype.join` on an array of strings. -/
def jsJoin (parts : List String) (sep : String) : String :=
  sep.intercalate parts

/-! ## Number parsing -/

/-- The class `StrWhiteSpaceChar`: white space and line terminators. -/
def isStrWhiteSpace (c : Char) : Bool :=
  let n := c.toNat
  n == 9 || n == 10 || n == 11 || n == 12 || n == 13 || n == 32 || n == 160 ||
  n == 0x1680 || (0x2000 ≤ n && n ≤ 0x200A) || n == 0x2028 || n == 0x2029 ||
  n == 0x202F || n == 0x205F || n == 0x3000 || n == 0xFEFF

/-- A decimal digit `0`..`9`. -/
def isDecimalDigit (c : Char) : Bool :=
  48 ≤ c.toNat && c.toNat ≤ 57

/-- The value of a run of decimal digits. -/
def digitsToNat (ds : List Char) : Nat :=
  ds.foldl (fun acc c => 10 * acc + (c.toNat - 48)) 0

/-- The value of the `ExponentPart` at the head of the input, `0` when there is
none. -/
def exponentPart : List Char → Int
  | [] => 0
  | e :: r =>
    if e == 'e' || e == 'E' then
      match r with
      | '+' :: ds => (digitsToNat (ds.takeWhile isDecimalDigit) : Int)
      | '-' :: ds => - (digitsToNat (ds.takeWhile isDecimalDigit) : Int)
      | ds => (digitsToNat (ds.takeWhile isDecimalDigit) : Int)
    else 0

/-- The longest prefix that is a `StrUnsignedDecimalLiteral` other than `Infinity`,
as a mantissa and a power of ten; `none` when no prefix is one. -/
def parseUnsignedDecimal (cs : List Char) : Option (Nat × Int) :=
  let intDigits := cs.takeWhile isDecimalDigit
  let rest := cs.dropWhile isDecimalDigit
  let fracDigits := match rest with
    | '.' :: r => r.takeWhile isDecimalDigit
    | _ => []
  let rest2 := match rest with
    | '.' :: r => r.dropWhile isDecimalDigit
    | _ => rest
  if intDigits.isEmpty && fracDigits.isEmpty then none
  else some (digitsToNat (intDigits ++ fracDigits), exponentPart rest2 - fracDigits.length)

/-- Round to the nearest integer, ties to the even one. -/
def roundHalfEven (m : ℚ) : ℤ :=
  if m - ⌊m⌋ < 1 / 2 then ⌊m⌋
  else if 1 / 2 < m - ⌊m⌋ then ⌊m⌋ + 1
  else if ⌊m⌋ % 2 = 0 then ⌊m⌋
  else ⌊m⌋ + 1

/-- The Number value of a mathematical value: IEEE 754 binary64, round to nearest,
ties to even.  The exponent `e` is that of the binade of `|q|`, not below `-1022`; the
unit in the last place is `2 ^ (e - 52)`; a rounded magnitude of `2 ^ 1024` or more is
an infinity. -/
def toNumber (q : ℚ) : JSNumber :=
  if q = 0 then .fin 0
  else
    let e : ℤ := max (Int.log 2 |q|) (-1022)
    let ulp : ℚ := (2 : ℚ) ^ (e - 52)
    let r : ℚ := (roundHalfEven (|q| / ulp) : ℚ) * ulp
    if (2 : ℚ) ^ (1024 : ℤ) ≤ r then (if q < 0 then .negInf else .posInf)
    else .fin (if q < 0 then -r else r)

/-- Strip one leading sign character. -/
def stripSign : List Char → List Char
  | '+' :: r => r
  | '-' :: r => r
  | cs => cs

/-- The global function `parseFloat` on a string. -/
def parseFloat (s : String) : JSNumber :=
  let cs := s.data.dropWhile isStrWhiteSpace
  let neg := cs.head? == some '-'
  let body := stripSign cs
  if "Infinity".data.isPrefixOf body then (if neg then .negInf else .posInf)
  else match parseUnsignedDecimal body with
    | none => .nan
    | some (m, e) => toNumber ((if neg then -1 else 1) * (m : ℚ) * (10 : ℚ) ^ e)

/-- The value of a hexadecimal digit, if it is one. -/
def hexDigitValue (c : Char) : Option Nat :=
  let n := c.toNat
  if 48 ≤ n && n ≤ 57 then some (n - 48)
  else if 97 ≤ n && n ≤ 102 then some (n - 87)
  else if 65 ≤ n && n ≤ 70 then some (n - 55)
  else none

/-- The value of a run of hexadecimal digits. -/
def hexDigitsToNat (ds : List Char) : Nat :=
  ds.foldl (fun acc c => 16 * acc + (hexDigitValue c).getD 0) 0

/-- The rest of the input after a `0x` or `0X` prefix, if it has one. -/
def hexBody : List Char → Option (List Char)
  | '0' :: x :: r => if x == 'x' || x == 'X' then some r else none
  | _ => none

/-- The global function `parseInt` on a string, with no radix argument. -/
def parseIntString (s : String) : JSNumber :=
  let cs := s.data.dropWhile isStrWhiteSpace
  let neg := cs.head? == some '-'
  let body := stripSign cs
  match hexBody body with
  | some r =>
    let ds := r.takeWhile (fun c => (hexDigitValue c).isSome)
    if ds.isEmpty then .nan
    else toNumber ((if neg then -1 else 1) * (hexDigitsToNat ds : ℚ))
  | none =>
    let ds := body.takeWhile isDecimalDigit
    if ds.isEmpty then .nan
    else toNumber ((if neg then -1 else 1) * (digitsToNat ds : ℚ))

/-! ## Conversion to string and property lookup -/

mutual
/-- The abstract operation `ToString`.  Objects are data read from JSON, so an own
`toString` field is not callable and the conversion throws. -/
def JSValue.toStr (rt : Runtime) : JSValue → Except JSError String
  | .undefined => pure "undefined"
  | .null => pure "null"
  | .bool b => pure (if b then "true" else "false")
  | .num n => pure (rt.numberToString n)
  | .str s => pure s
  | .arr xs => JSValue.joinElems rt xs
  | .obj fields =>
    if (fields.lookup "toString").isSome then throw .typeError
    else pure "[object Object]"
  | .fn name => pure ("function " ++ name ++ "() \x7b [native code] \x7d")
/-- The method `Array.prototype.join` with the separator `,`: `undefined` and `null`
elements give the empty string. -/
def JSValue.joinElems (rt : Runtime) : List JSValue → Except JSError String
  | [] => pure ""
  | [x] => JSValue.elemStr rt x
  | x :: y :: rest => do
    let a ← JSValue.elemStr rt x
    let b ← JSValue.joinElems rt (y :: rest)
    pure (a ++ "," ++ b)
/-- One element of a joined array. -/
def JSValue.elemStr (rt : Runtime) : JSValue → Except JSError String
  | .undefined => pure ""
  | .null => pure ""
  | .bool b => pure (if b then "true" else "false")
  | .num n => pure (rt.numberToString n)
  | .str s => pure s
  | .arr xs => JSValue.joinElems rt xs
  | .obj fields =>
    if (fields.lookup "toString").isSome then throw .typeError
    else pure "[object Object]"
  | .fn name => pure ("function " ++ name ++ "() \x7b [native code] \x7d")
end

/-- The names of the function-valued properties of `Object.prototype`. -/
def objectPrototypeMethods : List String :=
  ["hasOwnProperty", "isPrototypeOf", "propertyIsEnumerable", "toLocaleString",
   "toString", "valueOf", "__defineGetter__", "__defineSetter__",
   "__lookupGetter__", "__lookupSetter__"]

/-- Property read on `Object.prototype`, where a lookup on an object literal ends
when the literal has no own property of that name. -/
def objectPrototypeGet (key : String) : JSValue :=
  if key == "constructor" then .fn "Object"
  else if objectPrototypeMethods.contains key then .fn key
  else if key == "__proto__" then .obj []
  else .undefined

/-! ## Tokens and variables -/

/-- The record `token.original`: the token as written in its source file. -/
structure TokenOriginal where
  /-- The property `original.$type`. -/
  dollarType : JSValue
  /-- The property `original.$value`. -/
  dollarValue : JSValue

/-- A token of the dictionary, with the properties this file reads. -/
structure Token where
  /-- The property `path`: the segments of the token name. -/
  path : List String
  /-- The property `filePath`: the source file the token was read from. -/
  filePath : String
  /-- The property `$type`. -/
  dollarType : JSValue
  /-- The property `$value`. -/
  dollarValue : JSValue
  /-- The property `value`. -/
  value : JSValue
  /-- The property `original`. -/
  original : TokenOriginal

/-- A variable record `{ name, type, value }`. -/
structure Variable where
  name : String
  type : String
  value : JSValue

/-- A mode record `{ name, variables }`. -/
structure Mode where
  name : String
  /-- The property `variables` (a reserved word here). -/
  vars : List Variable

/-- A collection record `{ name, modes }`. -/
structure Collection where
  name : String
  modes : List Mode

/-- The object literal `{ r, g, b, a }`. -/
def rgbaObject (r g b a : JSNumber) : JSValue :=
  .obj [("r", .num r), ("g", .num g), ("b", .num b), ("a", .num a)]

/-- The literal `{ r: 0, g: 0, b: 0, a: 1 }`. -/
def opaqueBlack : JSValue :=
  rgbaObject (.fin 0) (.fin 0) (.fin 0) (.fin 1)

/-- The object built from a parsed color: `r`, `g`, `b` divided by 255, `a` kept. -/
def scaledColor (c : Rgba) : JSValue :=
  rgbaObject (c.r.div (.fin 255)) (c.g.div (.fin 255)) (c.b.div (.fin 255)) c.a

/-! ## Transforms -/

/-- The matcher of `figma/color`. -/
def figmaColorMatcher (token : Token) : Bool :=
  token.original.dollarType.strictEqStr "color"

/-- The transform of `figma/color`. -/
def figmaColorTransform (rt : Runtime) (token : Token) : JSValue :=
  let value := token.original.dollarValue
  if !value.toBoolean then opaqueBlack
  else
    let resolvedValue :=
      match value with
      | .str s => if jsStartsWith s "\x7b" then token.value else value
      | _ => value
    scaledColor (rt.tinycolorToRgb resolvedValue)

/-- The matcher of `figma/dimension`. -/
def figmaDimensionMatcher (token : Token) : Bool :=
  token.dollarType.strictEqStr "dimension"

/-- The transform of `figma/dimension`.  Only strings have a `replace` method. -/
def figmaDimensionTransform (token : Token) : Except JSError JSValue :=
  let value := token.dollarValue
  if !value.toBoolean then pure (.num (.fin 0))
  else
    match value with
    | .str s => pure (.num (parseFloat (jsReplace s "px" "")))
    | _ => throw .typeError

/-- The object literal `weightMap`. -/
def weightMap : List (String × JSValue) :=
  [("normal", .num (.fin 400)), ("medium", .num (.fin 500)),
   ("semibold", .num (.fin 600)), ("bold", .num (.fin 700))]

/-- The property read `weightMap[key]` for a property key. -/
def weightMapGet (key : String) : JSValue :=
  match weightMap.lookup key with
  | some v => v
  | none => objectPrototypeGet key

/-- The expression `weightMap[value] || parseInt(value)`. -/
def weightOrParseInt (rt : Runtime) (value : JSValue) : Except JSError JSValue := do
  let key ← value.toStr rt
  let mapped := weightMapGet key
  if mapped.toBoolean then pure mapped
  else do
    let s ← value.toStr rt
    pure (.num (parseIntString s))

/-- The matcher of `figma/fontWeight`. -/
def figmaFontWeightMatcher (token : Token) : Bool :=
  token.dollarType.strictEqStr "fontWeight"

/-- The transform of `figma/fontWeight`. -/
def figmaFontWeightTransform (rt : Runtime) (token : Token) : Except JSError JSValue :=
  let value := token.dollarValue
  if !value.toBoolean then pure (.num (.fin 400))
  else weightOrParseInt rt value

/-! ## The formatter `figma/variables` -/

/-- The helper `getFigmaVariableType`. -/
def getFigmaVariableType (tokenType : JSValue) : String :=
  if tokenType.strictEqStr "color" then "COLOR"
  else if tokenType.strictEqStr "dimension" then "FLOAT"
  else if tokenType.strictEqStr "fontWeight" then "FLOAT"
  else if tokenType.strictEqStr "fontSize" then "FLOAT"
  else if tokenType.strictEqStr "lineHeight" then "FLOAT"
  else if tokenType.strictEqStr "letterSpacing" then "FLOAT"
  else if tokenType.strictEqStr "fontFamily" then "STRING"
  else "STRING"

/-- The test `token.filePath.includes('.dark.json')`. -/
def isDark (token : Token) : Bool :=
  jsIncludes token.filePath ".dark.json"

/-- The value the loop body assigns to `variable.value`. -/
def variableValue (rt : Runtime) (token : Token) : Except JSError JSValue :=
  if token.dollarType.strictEqStr "color" then
    let resolvedValue := token.dollarValue
    if resolvedValue.typeof == "string" then
      pure (scaledColor (rt.tinycolorToRgb resolvedValue))
    else if resolvedValue.toBoolean && resolvedValue.typeof == "object" then
      pure resolvedValue
    else pure opaqueBlack
  else if token.dollarType.strictEqStr "dimension" then
    match token.dollarValue with
    | .str s => pure (.num (parseFloat (jsReplace s "px" "")))
    | _ => throw .typeError
  else if token.dollarType.strictEqStr "fontWeight" then
    weightOrParseInt rt token.dollarValue
  else pure token.dollarValue

/-- The variable the loop body builds for one token. -/
def buildVariable (rt : Runtime) (token : Token) : Except JSError Variable := do
  let value ← variableValue rt token
  pure { name := jsJoin token.path "/", type := getFigmaVariableType token.dollarType,
         value := value }

/-- Apply `f` to the element at index `i`, if there is one. -/
def updateAt {α : Type} (f : α → α) : Nat → List α → List α
  | _, [] => []
  | 0, x :: xs => f x :: xs
  | i + 1, x :: xs => x :: updateAt f i xs

/-- The call `mode.variables.push(variable)`. -/
def Mode.push (m : Mode) (v : Variable) : Mode :=
  { name := m.name, vars := m.vars ++ [v] }

/-- The push on `collection.modes[0]`. -/
def Collection.push (c : Collection) (v : Variable) : Collection :=
  { name := c.name, modes := updateAt (fun m => m.push v) 0 c.modes }

/-- The statement `mode.variables.push(variable)` for the mode of `collections[idx]`. -/
def pushVariable (collections : List Collection) (idx : Nat) (v : Variable) :
    List Collection :=
  updateAt (fun c => c.push v) idx collections

/-- The array `collections` before the loop. -/
def initialCollections : List Collection :=
  [{ name := "Light", modes := [{ name := "Default", vars := [] }] },
   { name := "Dark", modes := [{ name := "Default", vars := [] }] }]

/-- One round of the `forEach` callback. -/
def formatStep (rt : Runtime) (collections : List Collection) (token : Token) :
    Except JSError (List Collection) := do
  let v ← buildVariable rt token
  pure (pushVariable collections (if isDark token then 1 else 0) v)

/-- The loop `dictionary.allTokens.forEach(...)` from a given state of `collections`. -/
def formatLoop (rt : Runtime) : List Token → List Collection → Except JSError (List Collection)
  | [], collections => .ok collections
  | token :: rest, collections =>
    match formatStep rt collections token with
    | .ok next => formatLoop rt rest next
    | .error e => .error e

/-- The `format` function of `figma/variables`, up to `JSON.stringify`. -/
def format (rt : Runtime) (allTokens : List Token) : Except JSError (List Collection) :=
  formatLoop rt allTokens initialCollections

/-! ## The reference transform and the configuration of `main` -/

/-- Split a character list at every occurrence of `sep`. -/
def splitOnChar (sep : Char) : List Char → List (List Char)
  | [] => [[]]
  | c :: cs =>
    if c == sep then [] :: splitOnChar sep cs
    else
      match splitOnChar sep cs with
      | [] => [[c]]
      | p :: ps => (c :: p) :: ps

/-- The method `String.prototype.split` with a one-character separator. -/
def jsSplit (s : String) (sep : Char) : List String :=
  (splitOnChar sep s.data).map String.mk

/-- The call `s.slice(1, -1)`. -/
def jsSliceInner (s : String) : String :=
  ⟨(s.data.drop 1).dropLast⟩

/-- A property of the object `SD.tokens`: a token, or a group of nested tokens,
which has no `original` property. -/
inductive TreeEntry where
  | token (t : Token)
  | group

/-- The matcher of `figma/reference`. -/
def figmaReferenceMatcher (token : Token) : Bool :=
  match token.original.dollarValue with
  | .str s => !s.data.isEmpty && jsStartsWith s "\x7b"
  | _ => false

/-- The transform of `figma/reference`, over the own properties `sdTokens` of
`SD.tokens`.  Only strings have both `slice` and `split`; a truthy entry without
`original` makes `resolvedToken.original.$value` throw. -/
def figmaReferenceTransform (sdTokens : List (String × TreeEntry)) (token : Token) :
    Except JSError JSValue :=
  match token.original.dollarValue with
  | .str s =>
    let ref := jsSliceInner s
    let parts := jsSplit ref '.'
    let key := jsJoin parts "."
    match sdTokens.lookup key with
    | some (.token resolvedToken) => pure resolvedToken.original.dollarValue
    | some .group => throw .typeError
    | none =>
      if (objectPrototypeGet key).toBoolean then throw .typeError
      else pure token.original.dollarValue
  | _ => throw .typeError

/-- The array `sourceFiles` of `main`. -/
def sourceFiles : List String :=
  ["tokens/**/*.json", "!tokens/**/*.dark.json"]

/-- The `transforms` array in the configuration object of `main`. -/
def configuredTransforms : List String :=
  ["figma/color", "figma/dimension", "figma/fontWeight"]

/-- The `transforms` array after `SD.platforms.figma.transforms.push('figma/reference')`. -/
def platformTransforms : List String :=
  configuredTransforms ++ ["figma/reference"]

/-- The own properties of `SD.tokens` when the tokens are kept as a nested tree: a
token with a one-segment path is a property itself, a longer path makes its first
segment a group. -/
def treeEntries (tokens : List Token) : List (String × TreeEntry) :=
  tokens.filterMap (fun t =>
    match t.path with
    | [] => none
    | [k] => some (k, .token t)
    | k :: _ => some (k, .group))

/-! ## Reading the result -/

/-- The variables of `collections[idx].modes[0]`, empty when there is no such mode. -/
def variablesAt (collections : List Collection) (idx : Nat) : List Variable :=
  match collections.get? idx with
  | some c =>
    match c.modes.head? with
    | some m => m.vars
    | none => []
  | none => []

/-- The document shape `[Light, Dark]` with the given variable sequences. -/
def document (light dark : List Variable) : List Collection :=
  [{ name := "Light", modes := [{ name := "Default", vars := light }] },
   { name := "Dark", modes := [{ name := "Default", vars := dark }] }]

/-! ## The dark marker in the words of the specification -/

/-- The file extension of a path: what follows the last `.` of the file name. -/
def fileExtension (path : String) : List Char :=
  (path.data.reverse.takeWhile (fun c => c != '.' && c != '/')).reverse

/-- The path has the marker `.dark.` immediately before its file extension. -/
def darkMarkerBeforeExtension (path : String) : Bool :=
  (".dark.".data ++ fileExtension path).isSuffixOf path.data

/-! ## A runtime to evaluate on -/

/-- The channel value of two hexadecimal digits. -/
def hexPair (hi lo : Char) : Option Nat :=
  match hexDigitValue hi, hexDigitValue lo with
  | some h, some l => some (16 * h + l)
  | _, _ => none

/-- The channels `tinycolor2` reads from an object `{ r, g, b, a }` whose `r`, `g`, `b`
are whole numbers in `0..255`: the channels themselves, and `a` when it lies in
`0..1`, else `1`. -/
def rgbObjectChannels (fields : List (String × JSValue)) : Option Rgba :=
  match fields.lookup "r", fields.lookup "g", fields.lookup "b" with
  | some (.num (.fin r)), some (.num (.fin g)), some (.num (.fin b)) =>
    if r.den = 1 ∧ g.den = 1 ∧ b.den = 1 ∧ 0 ≤ r ∧ r ≤ 255 ∧ 0 ≤ g ∧ g ≤ 255 ∧
        0 ≤ b ∧ b ≤ 255 then
      match fields.lookup "a" with
      | some (.num (.fin a)) =>
        some ⟨.fin r, .fin g, .fin b, .fin (if 0 ≤ a ∧ a ≤ 1 then a else 1)⟩
      | _ => some ⟨.fin r, .fin g, .fin b, .fin 1⟩
    else none
  | _, _, _ => none

/-- A runtime for concrete evaluation.  It agrees with `tinycolor2` on `#RRGGBB`
strings and on `{ r, g, b, a }` objects with whole channels in `0..255`, and with the
engine on printing `NaN`, the infinities and integers; what it answers elsewhere is
a placeholder. -/
def sampleRuntime : Runtime where
  tinycolorToRgb := fun v =>
    match v with
    | .str s =>
      match s.data with
      | ['#', r1, r2, g1, g2, b1, b2] =>
        match hexPair r1 r2, hexPair g1 g2, hexPair b1 b2 with
        | some r, some g, some b => ⟨.fin r, .fin g, .fin b, .fin 1⟩
        | _, _, _ => ⟨.fin 0, .fin 0, .fin 0, .fin 1⟩
      | _ => ⟨.fin 0, .fin 0, .fin 0, .fin 1⟩
    | .obj fields => (rgbObjectChannels fields).getD ⟨.fin 0, .fin 0, .fin 0, .fin 1⟩
    | _ => ⟨.fin 0, .fin 0, .fin 0, .fin 1⟩
  numberToString := fun n =>
    match n with
    | .nan => "NaN"
    | .posInf => "Infinity"
    | .negInf => "-Infinity"
    | .fin q => toString q.num ++ (if q.den = 1 then "" else "/" ++ toString q.den)

/-- A token as the loader hands it over before any transform has run. -/
def sourceToken (path : List String) (filePath : String) (type value : JSValue) : Token :=
  { path := path, filePath := filePath, dollarType := type, dollarValue := value,
    value := .undefined, original := { dollarType := type, dollarValue := value } }

/-- An object shaped `{ r, g, b, a }`: the four properties are present and numbers. -/
def isRgbaShaped : JSValue → Bool
  | .obj fields =>
    match fields.lookup "r", fields.lookup "g", fields.lookup "b", fields.lookup "a" with
    | some (.num _), some (.num _), some (.num _), some (.num _) => true
    | _, _, _, _ => false
  | _ => false

/-- The text of a decimal numeral: an optional minus sign, integer digits, and a
fraction when `frac` is not empty. -/
def numeralText (neg : Bool) (int frac : List Char) : List Char :=
  (if neg then ['-'] else []) ++ int ++ (if frac.isEmpty then [] else '.' :: frac)

/-- The number a decimal numeral denotes. -/
def numeralValue (neg : Bool) (int frac : List Char) : ℚ :=
  (if neg then -1 else 1) *
    ((digitsToNat int : ℚ) + (digitsToNat frac : ℚ) / (10 : ℚ) ^ frac.length)

/-- The string `s` with its final two characters removed. -/
def dropFinalTwo (s : String) : String :=
  ⟨s.data.dropLast.dropLast⟩

/-- The Reference Transform in the words of the specification, over a token set keyed
by dotted path: `p` is the raw value without its first and last characters; an entry
under `p` gives that entry's own raw value, no entry gives the raw string unchanged. -/
def referenceBySpec (tokenSet : List (String × Token)) (raw : String) : JSValue :=
  let p : String := ⟨(raw.data.drop 1).dropLast⟩
  match tokenSet.lookup p with
  | some entry => entry.original.dollarValue
  | none => .str raw

/-- The token set as own properties of `SD.tokens`, every entry a token. -/
def tokenSetEntries (tokenSet : List (String × Token)) : List (String × TreeEntry) :=
  tokenSet.map (fun e => (e.1, TreeEntry.token e.2))

/-! ## The formatter loop -/

theorem pure_eq_ok {α : Type} (a : α) : (pure a : Except JSError α) = .ok a := rfl

theorem throw_eq_error {α : Type} (e : JSError) : (throw e : Except JSError α) = .error e := rfl

theorem pushVariable_light (l d : List Variable) (v : Variable) :
    pushVariable (document l d) 0 v = document (l ++ [v]) d := rfl

theorem pushVariable_dark (l d : List Variable) (v : Variable) :
    pushVariable (document l d) 1 v = document l (d ++ [v]) := rfl

theorem formatStep_document (rt : Runtime) (l d : List Variable) (t : Token) (v : Variable)
    (h : buildVariable rt t = .ok v) :
    formatStep rt (document l d) t =
      .ok (if isDark t then document l (d ++ [v]) else document (l ++ [v]) d) := by
  unfold formatStep
  rw [h]
  by_cases hd : isDark t = true
  · simp only [hd, if_true]
    exact congrArg Except.ok (pushVariable_dark l d v)
  · simp only [hd, if_false]
    exact congrArg Except.ok (pushVariable_light l d v)

theorem formatStep_error (rt : Runtime) (cs : List Collection) (t : Token) (e : JSError)
    (h : buildVariable rt t = .error e) : formatStep rt cs t = .error e := by
  unfold formatStep
  rw [h]
  rfl

theorem formatLoop_append (rt : Runtime) (ts : List Token) (t : Token) :
    ∀ cs, formatLoop rt (ts ++ [t]) cs =
      match formatLoop rt ts cs with
      | .ok next => formatStep rt next t
      | .error e => .error e := by
  induction ts with
  | nil =>
    intro cs
    simp only [List.nil_append, formatLoop]
    cases hs : formatStep rt cs t <;> rfl
  | cons u us ih =>
    intro cs
    simp only [List.cons_append, formatLoop]
    cases formatStep rt cs u with
    | error e => rfl
    | ok next => exact ih next

/-- The loop from a two-collection state: every token builds, and the built
variables are appended to the two sequences in token order. -/
theorem formatLoop_document (rt : Runtime) :
    ∀ (ts : List Token) (l d : List Variable),
      (∀ t ∈ ts, ∃ v, buildVariable rt t = .ok v) →
      ∃ l2 d2, formatLoop rt ts (document l d) = .ok (document (l ++ l2) (d ++ d2)) ∧
        List.Forall₂ (fun t v => buildVariable rt t = .ok v)
          (ts.filter (fun t => !isDark t)) l2 ∧
        List.Forall₂ (fun t v => buildVariable rt t = .ok v) (ts.filter isDark) d2 := by
  intro ts
  induction ts with
  | nil =>
    intro l d _
    exact ⟨[], [], by simp [formatLoop], List.Forall₂.nil, List.Forall₂.nil⟩
  | cons t ts ih =>
    intro l d h
    obtain ⟨v, hv⟩ := h t (List.mem_cons_self t ts)
    have hrest : ∀ u ∈ ts, ∃ w, buildVariable rt u = .ok w :=
      fun u hu => h u (List.mem_cons_of_mem t hu)
    by_cases hd : isDark t = true
    · obtain ⟨l2, d2, hloop, hl, hdk⟩ := ih l (d ++ [v]) hrest
      refine ⟨l2, v :: d2, ?_, ?_, ?_⟩
      · simp only [formatLoop, formatStep_document rt l d t v hv, hd, if_true]
        rw [hloop]
        simp
      · simpa [List.filter_cons, hd] using hl
      · simp only [List.filter_cons, hd, if_true]
        exact List.Forall₂.cons hv hdk
    · obtain ⟨l2, d2, hloop, hl, hdk⟩ := ih (l ++ [v]) d hrest
      have hd2 : isDark t = false := by simpa using hd
      refine ⟨v :: l2, d2, ?_, ?_, ?_⟩
      · simp only [formatLoop, formatStep_document rt l d t v hv, hd2]
        simp only [Bool.false_eq_true, if_false]
        rw [hloop]
        simp
      · simp only [List.filter_cons, hd2, Bool.not_false, if_true]
        exact List.Forall₂.cons hv hl
      · simpa [List.filter_cons, hd2] using hdk

/-- A loop that returns has built a variable for every token. -/
theorem formatLoop_ok_builds (rt : Runtime) :
    ∀ (ts : List Token) (cs out : List Collection), formatLoop rt ts cs = .ok out →
      ∀ t ∈ ts, ∃ v, buildVariable rt t = .ok v := by
  intro ts
  induction ts with
  | nil => intro cs out _ t ht; cases ht
  | cons u us ih =>
    intro cs out h t ht
    cases hb : buildVariable rt u with
    | error e =>
      simp [formatLoop, formatStep_error rt cs u e hb] at h
    | ok v =>
      rcases List.mem_cons.mp ht with rfl | hmem
      · exact ⟨v, hb⟩
      · cases hs : formatStep rt cs u with
        | error e => simp [formatLoop, hs] at h
        | ok next =>
          simp only [formatLoop, hs] at h
          exact ih next out h t hmem

/-- The model of `includes` is containment as a contiguous run. -/
theorem includesChars_iff_run (sub : List Char) :
    ∀ cs : List Char, includesChars cs sub = true ↔ sub <:+: cs := by
  intro cs
  induction cs with
  | nil =>
    cases sub with
    | nil => simp [includesChars]
    | cons c r => simp [includesChars]
  | cons c cs ih =>
    simp only [includesChars, Bool.or_eq_true, ih, List.infix_cons_iff,
      List.isPrefixOf_iff_prefix]

/-! ## C1: light and dark membership -/

/-- C1, as stated, fails: the claim puts a token in "Dark" exactly when its file path
has `.dark.` right before the file extension.  The path `tokens/colors.dark.js` has
the marker there, yet the formatter files the token under "Light"; the path
`tokens/v2.dark.json/colors.json` does not, yet the token goes to "Dark". -/
theorem C1_marker_before_extension_counterexample :
    darkMarkerBeforeExtension "tokens/colors.dark.js" = true ∧
    (∀ rt, format rt
        [sourceToken ["font", "body"] "tokens/colors.dark.js" (.str "fontFamily") (.str "Inter")] =
      .ok (document [⟨"font/body", "STRING", .str "Inter"⟩] [])) ∧
    darkMarkerBeforeExtension "tokens/v2.dark.json/colors.json" = false ∧
    (∀ rt, format rt
        [sourceToken ["font", "body"] "tokens/v2.dark.json/colors.json" (.str "fontFamily")
          (.str "Inter")] =
      .ok (document [] [⟨"font/body", "STRING", .str "Inter"⟩])) := by
  refine ⟨by decide, fun _ => rfl, by decide, fun _ => rfl⟩

/-- C1, amended: after any tokens `ts`, the variable of the next token `t` is appended
to the "Dark" sequence when `t.filePath` contains the text `.dark.json` somewhere, and
to the "Light" sequence otherwise; the other sequence is left as it was. -/
theorem C1_dark_iff_path_contains_dark_json (rt : Runtime) (ts : List Token) (t : Token)
    (l d : List Variable) (v : Variable)
    (h : format rt ts = .ok (document l d)) (hv : buildVariable rt t = .ok v) :
    (jsIncludes t.filePath ".dark.json" = true ↔ ".dark.json".data <:+: t.filePath.data) ∧
    format rt (ts ++ [t]) =
      .ok (if jsIncludes t.filePath ".dark.json" then document l (d ++ [v])
           else document (l ++ [v]) d) := by
  refine ⟨includesChars_iff_run _ _, ?_⟩
  unfold format at h ⊢
  rw [formatLoop_append, h]
  exact formatStep_document rt l d t v hv

theorem C1_dark_iff_path_contains_dark_json_witness :
    format sampleRuntime
        ([sourceToken ["font", "body"] "tokens/type.json" (.str "fontFamily") (.str "Inter")] ++
          [sourceToken ["font", "body"] "tokens/type.dark.json" (.str "fontFamily")
            (.str "Mono")]) =
      .ok (document [⟨"font/body", "STRING", .str "Inter"⟩]
        [⟨"font/body", "STRING", .str "Mono"⟩]) :=
  (C1_dark_iff_path_contains_dark_json sampleRuntime
    [sourceToken ["font", "body"] "tokens/type.json" (.str "fontFamily") (.str "Inter")]
    (sourceToken ["font", "body"] "tokens/type.dark.json" (.str "fontFamily") (.str "Mono"))
    [⟨"font/body", "STRING", .str "Inter"⟩] [] ⟨"font/body", "STRING", .str "Mono"⟩ rfl rfl).2

/-! ## C2: order and completeness -/

/-- C2: when every token of `ts` builds a variable, the formatter returns the
document whose "Light" sequence is the variables of the non-dark tokens and whose
"Dark" sequence is the variables of the dark tokens, each in the order of `ts`; the
two lengths add up to the length of `ts`, and every variable is named by its token
path joined with `/`.  (A token whose variable cannot be built makes the formatter
throw.) -/
theorem C2_format_preserves_order (rt : Runtime) (ts : List Token)
    (h : ∀ t ∈ ts, ∃ v, buildVariable rt t = .ok v) :
    ∃ light dark, format rt ts = .ok (document light dark) ∧
      List.Forall₂ (fun t v => buildVariable rt t = .ok v)
        (ts.filter (fun t => !isDark t)) light ∧
      List.Forall₂ (fun t v => buildVariable rt t = .ok v) (ts.filter isDark) dark ∧
      light.length + dark.length = ts.length ∧
      light.map Variable.name = (ts.filter (fun t => !isDark t)).map (fun t => jsJoin t.path "/") ∧
      dark.map Variable.name = (ts.filter isDark).map (fun t => jsJoin t.path "/") := by
  obtain ⟨l2, d2, hloop, hl, hd⟩ := formatLoop_document rt ts [] [] h
  have hname : ∀ (xs : List Token) (vs : List Variable),
      List.Forall₂ (fun t v => buildVariable rt t = .ok v) xs vs →
      vs.map Variable.name = xs.map (fun t => jsJoin t.path "/") := by
    intro xs vs hf
    induction hf with
    | nil => rfl
    | @cons t v xs vs hb _ ih =>
      simp only [List.map_cons, ih]
      congr 1
      unfold buildVariable at hb
      cases hval : variableValue rt t with
      | error e => rw [hval] at hb; cases hb
      | ok val =>
        rw [hval] at hb
        cases hb
        rfl
  have hlen : ∀ xs : List Token,
      (xs.filter (fun t => !isDark t)).length + (xs.filter isDark).length = xs.length := by
    intro xs
    induction xs with
    | nil => rfl
    | cons x xs ih =>
      by_cases hx : isDark x = true
      · simp [List.filter_cons, hx]; omega
      · simp [List.filter_cons, hx]; omega
  refine ⟨l2, d2, by simpa [format] using hloop, hl, hd, ?_, hname _ _ hl, hname _ _ hd⟩
  rw [← hl.length_eq, ← hd.length_eq]
  exact hlen ts

theorem C2_format_preserves_order_witness :
    ∃ light dark,
      format sampleRuntime
          [sourceToken ["a"] "tokens/x.dark.json" (.str "fontFamily") (.str "A"),
           sourceToken ["b"] "tokens/x.json" (.str "fontFamily") (.str "B"),
           sourceToken ["c", "d"] "tokens/x.json" (.str "fontFamily") (.str "C")] =
        .ok (document light dark) ∧
      light.map Variable.name = ["b", "c/d"] ∧ dark.map Variable.name = ["a"] := by
  obtain ⟨light, dark, hf, _, _, _, hl, hd⟩ := C2_format_preserves_order sampleRuntime
    [sourceToken ["a"] "tokens/x.dark.json" (.str "fontFamily") (.str "A"),
     sourceToken ["b"] "tokens/x.json" (.str "fontFamily") (.str "B"),
     sourceToken ["c", "d"] "tokens/x.json" (.str "fontFamily") (.str "C")]
    (by
      intro t ht
      simp only [List.mem_cons, List.mem_singleton, List.not_mem_nil, or_false] at ht
      rcases ht with rfl | rfl | rfl <;> exact ⟨_, rfl⟩)
  exact ⟨light, dark, hf, hl, hd⟩

/-- A formatter run that returns has produced a two-collection document, with the
variables of the light and the dark tokens in order. -/
theorem format_ok_document (rt : Runtime) (ts : List Token) (cs : List Collection)
    (h : format rt ts = .ok cs) :
    ∃ light dark, cs = document light dark ∧
      List.Forall₂ (fun t v => buildVariable rt t = .ok v)
        (ts.filter (fun t => !isDark t)) light ∧
      List.Forall₂ (fun t v => buildVariable rt t = .ok v) (ts.filter isDark) dark := by
  have hb := formatLoop_ok_builds rt ts initialCollections cs h
  obtain ⟨l2, d2, hloop, hl, hd⟩ := formatLoop_document rt ts [] [] hb
  refine ⟨l2, d2, ?_, hl, hd⟩
  have h2 : format rt ts = .ok (document l2 d2) := by simpa [format] using hloop
  rw [h] at h2
  exact Except.ok.inj h2

/-- The type of a built variable. -/
theorem buildVariable_type (rt : Runtime) (t : Token) (v : Variable)
    (h : buildVariable rt t = .ok v) : v.type = getFigmaVariableType t.dollarType := by
  unfold buildVariable at h
  cases hval : variableValue rt t with
  | error e => rw [hval] at h; cases h
  | ok val =>
    rw [hval] at h
    cases h
    rfl

/-- The loop body builds a variable unless `replace` is called on a dimension value
that is not a string, or a font weight cannot be converted to a property key. -/
theorem buildVariable_returns (rt : Runtime) (t : Token)
    (hdim : t.dollarType.strictEqStr "dimension" = true → ∃ s, t.dollarValue = .str s)
    (hfw : t.dollarType.strictEqStr "fontWeight" = true →
      ∃ k, t.dollarValue.toStr rt = .ok k) :
    ∃ v, buildVariable rt t = .ok v := by
  have hval : ∃ val, variableValue rt t = .ok val := by
    unfold variableValue
    by_cases hc : t.dollarType.strictEqStr "color" = true
    · simp only [hc, if_true]
      split
      · exact ⟨_, rfl⟩
      · split <;> exact ⟨_, rfl⟩
    · by_cases hd : t.dollarType.strictEqStr "dimension" = true
      · obtain ⟨s, hs⟩ := hdim hd
        simp only [hc, hd, hs, if_true, if_false]
        exact ⟨_, rfl⟩
      · by_cases hf : t.dollarType.strictEqStr "fontWeight" = true
        · obtain ⟨k, hk⟩ := hfw hf
          simp only [hc, hd, hf, if_true, if_false, weightOrParseInt, hk]
          show ∃ val, (if (weightMapGet k).toBoolean = true then pure (weightMapGet k)
            else pure (.num (parseIntString k)) : Except JSError JSValue) = .ok val
          split <;> exact ⟨_, rfl⟩
        · simp only [hc, hd, hf, if_false]
          exact ⟨_, rfl⟩
  obtain ⟨val, hv⟩ := hval
  refine ⟨⟨jsJoin t.path "/", getFigmaVariableType t.dollarType, val⟩, ?_⟩
  unfold buildVariable
  rw [hv]
  rfl

/-! ## C3: the shape of the document -/

/-- C3: the formatter returns on the empty list, and on every list whose tokens all
build a variable; and whatever it returns is an array of exactly two collections,
"Light" then "Dark", each with exactly one mode, named "Default". -/
theorem C3_document_shape (rt : Runtime) (ts : List Token) :
    format rt [] = .ok (document [] []) ∧
    ((∀ t ∈ ts, ∃ v, buildVariable rt t = .ok v) → ∃ cs, format rt ts = .ok cs) ∧
    (∀ cs, format rt ts = .ok cs →
      cs.length = 2 ∧ cs.map Collection.name = ["Light", "Dark"] ∧
      ∀ c ∈ cs, c.modes.length = 1 ∧ c.modes.map Mode.name = ["Default"]) := by
  refine ⟨rfl, ?_, ?_⟩
  · intro h
    obtain ⟨l2, d2, hloop, _, _⟩ := formatLoop_document rt ts [] [] h
    exact ⟨_, hloop⟩
  · intro cs h
    obtain ⟨light, dark, rfl, _, _⟩ := format_ok_document rt ts cs h
    refine ⟨rfl, rfl, ?_⟩
    intro c hc
    simp only [document, List.mem_cons, List.mem_singleton, List.not_mem_nil, or_false] at hc
    rcases hc with rfl | rfl <;> exact ⟨rfl, rfl⟩

theorem C3_document_shape_witness :
    ∃ cs, format sampleRuntime
        [sourceToken ["a"] "tokens/x.dark.json" (.str "fontFamily") (.str "A")] = .ok cs ∧
      cs.length = 2 ∧ cs.map Collection.name = ["Light", "Dark"] :=
  have h := C3_document_shape sampleRuntime
    [sourceToken ["a"] "tokens/x.dark.json" (.str "fontFamily") (.str "A")]
  have ⟨cs, hcs⟩ := h.2.1 (by
    intro t ht
    simp only [List.mem_singleton] at ht
    subst ht
    exact ⟨_, rfl⟩)
  ⟨cs, hcs, (h.2.2 cs hcs).1, (h.2.2 cs hcs).2.1⟩

/-! ## C4: the type map -/

/-- C4: `getFigmaVariableType` sends `color` to `COLOR`; `dimension`, `fontWeight`,
`fontSize`, `lineHeight` and `letterSpacing` to `FLOAT`; `fontFamily` and every other
value, a missing type included, to `STRING`; and each variable the formatter emits
has as `type` this function of its token's `$type`. -/
theorem C4_type_map (rt : Runtime) (ts : List Token) :
    getFigmaVariableType (.str "color") = "COLOR" ∧
    getFigmaVariableType (.str "dimension") = "FLOAT" ∧
    getFigmaVariableType (.str "fontWeight") = "FLOAT" ∧
    getFigmaVariableType (.str "fontSize") = "FLOAT" ∧
    getFigmaVariableType (.str "lineHeight") = "FLOAT" ∧
    getFigmaVariableType (.str "letterSpacing") = "FLOAT" ∧
    getFigmaVariableType (.str "fontFamily") = "STRING" ∧
    getFigmaVariableType .undefined = "STRING" ∧
    (∀ v : JSValue,
      (∀ s ∈ ["color", "dimension", "fontWeight", "fontSize", "lineHeight", "letterSpacing"],
        v ≠ .str s) →
      getFigmaVariableType v = "STRING") ∧
    (∀ light dark, format rt ts = .ok (document light dark) →
      light.map Variable.type =
        (ts.filter (fun t => !isDark t)).map (fun t => getFigmaVariableType t.dollarType) ∧
      dark.map Variable.type =
        (ts.filter isDark).map (fun t => getFigmaVariableType t.dollarType)) := by
  refine ⟨by decide, by decide, by decide, by decide, by decide, by decide, by decide,
    by decide, ?_, ?_⟩
  · intro v hv
    have hne : ∀ s ∈ ["color", "dimension", "fontWeight", "fontSize", "lineHeight",
        "letterSpacing"], v.strictEqStr s = false := by
      intro s hs
      cases v with
      | str t =>
        have : t ≠ s := fun e => hv s hs (by rw [e])
        simpa [JSValue.strictEqStr] using this
      | _ => rfl
    unfold getFigmaVariableType
    rw [hne "color" (by simp), hne "dimension" (by simp), hne "fontWeight" (by simp),
      hne "fontSize" (by simp), hne "lineHeight" (by simp), hne "letterSpacing" (by simp)]
    simp
  · intro light dark h
    obtain ⟨l2, d2, heq, hl, hd⟩ := format_ok_document rt ts _ h
    have htype : ∀ (xs : List Token) (vs : List Variable),
        List.Forall₂ (fun t v => buildVariable rt t = .ok v) xs vs →
        vs.map Variable.type = xs.map (fun t => getFigmaVariableType t.dollarType) := by
      intro xs vs hf
      induction hf with
      | nil => rfl
      | @cons t v xs vs hb _ ih =>
        simp only [List.map_cons, ih, buildVariable_type rt t v hb]
    simp only [document, List.cons.injEq, Collection.mk.injEq, Mode.mk.injEq, true_and,
      and_true] at heq
    obtain ⟨rfl, rfl⟩ := heq
    exact ⟨htype _ _ hl, htype _ _ hd⟩

theorem C4_type_map_witness :
    [(⟨"a", "COLOR", opaqueBlack⟩ : Variable)].map Variable.type =
      ([sourceToken ["a"] "tokens/x.json" (.str "color") .null].filter
        (fun t => !isDark t)).map (fun t => getFigmaVariableType t.dollarType) :=
  ((C4_type_map sampleRuntime [sourceToken ["a"] "tokens/x.json" (.str "color") .null]).2.2.2.2.2.2.2.2.2
    [⟨"a", "COLOR", opaqueBlack⟩] [] rfl).1

/-! ## C6 to C9: colors -/

/-- C6: let `s` be a non-empty color string that is not a reference and that the
parser reads as channels `R`, `G`, `B` in `0..255` and alpha `A`.  Then the
`figma/color` transform, and the color branch of the formatter, both give
`r = R/255`, `g = G/255`, `b = B/255`, each in `[0,1]`, and `a = A`. -/
theorem C6_color_channels_scaled (rt : Runtime) (s : String) (R G B : ℚ) (A : JSNumber)
    (hne : s ≠ "") (href : jsStartsWith s "\x7b" = false)
    (hparse : rt.tinycolorToRgb (.str s) = ⟨.fin R, .fin G, .fin B, A⟩)
    (hR : 0 ≤ R ∧ R ≤ 255) (hG : 0 ≤ G ∧ G ≤ 255) (hB : 0 ≤ B ∧ B ≤ 255) :
    (∀ tok : Token, tok.original.dollarValue = .str s →
      figmaColorTransform rt tok =
        rgbaObject (.fin (R / 255)) (.fin (G / 255)) (.fin (B / 255)) A) ∧
    (∀ tok : Token, tok.dollarType = .str "color" → tok.dollarValue = .str s →
      variableValue rt tok =
        .ok (rgbaObject (.fin (R / 255)) (.fin (G / 255)) (.fin (B / 255)) A)) ∧
    (0 ≤ R / 255 ∧ R / 255 ≤ 1) ∧ (0 ≤ G / 255 ∧ G / 255 ≤ 1) ∧
    (0 ≤ B / 255 ∧ B / 255 ≤ 1) := by
  have hscaled : scaledColor (rt.tinycolorToRgb (.str s)) =
      rgbaObject (.fin (R / 255)) (.fin (G / 255)) (.fin (B / 255)) A := by
    rw [hparse]
    simp [scaledColor, JSNumber.div]
  have hdata : s.data ≠ [] := by
    intro h
    apply hne
    cases s
    simp_all
  have hunit : ∀ q : ℚ, 0 ≤ q ∧ q ≤ 255 → 0 ≤ q / 255 ∧ q / 255 ≤ 1 := by
    intro q hq
    constructor
    · exact div_nonneg hq.1 (by norm_num)
    · rw [div_le_one (by norm_num)]
      exact hq.2
  refine ⟨?_, ?_, hunit R hR, hunit G hG, hunit B hB⟩
  · intro tok htok
    unfold figmaColorTransform
    simp only [htok, JSValue.toBoolean, href]
    simp [hdata, hscaled]
  · intro tok htype hval
    unfold variableValue
    simp only [htype, hval]
    simp [JSValue.strictEqStr, JSValue.typeof, hscaled, pure_eq_ok]

theorem C6_color_channels_scaled_witness :
    figmaColorTransform sampleRuntime
        (sourceToken ["primary"] "tokens/primary.json" (.str "color") (.str "#FF0000")) =
      rgbaObject (.fin (255 / 255)) (.fin (0 / 255)) (.fin (0 / 255)) (.fin 1) :=
  (C6_color_channels_scaled sampleRuntime "#FF0000" 255 0 0 (.fin 1) (by decide) (by decide)
    (by simp [sampleRuntime, hexPair, hexDigitValue]) (by norm_num) (by norm_num)
    (by norm_num)).1 _ rfl

/-- C7: a color token whose value is `undefined` or `null` gives opaque black
`{ r: 0, g: 0, b: 0, a: 1 }`, from the `figma/color` transform and from the color
branch of the formatter alike. -/
theorem C7_missing_color_is_black (rt : Runtime) (tok : Token) (v : JSValue)
    (hv : v = .undefined ∨ v = .null) :
    (tok.original.dollarValue = v → figmaColorTransform rt tok = opaqueBlack) ∧
    (tok.dollarType = .str "color" → tok.dollarValue = v →
      variableValue rt tok = .ok opaqueBlack) := by
  constructor
  · intro h
    unfold figmaColorTransform
    rcases hv with rfl | rfl <;> simp [h, JSValue.toBoolean]
  · intro ht h
    unfold variableValue
    rcases hv with rfl | rfl <;>
      simp [ht, h, JSValue.strictEqStr, JSValue.typeof, JSValue.toBoolean, pure_eq_ok]

theorem C7_missing_color_is_black_witness :
    variableValue sampleRuntime
        (sourceToken ["primary"] "tokens/primary.json" (.str "color") .null) =
      .ok opaqueBlack :=
  (C7_missing_color_is_black sampleRuntime
    (sourceToken ["primary"] "tokens/primary.json" (.str "color") .null) .null
    (Or.inr rfl)).2 rfl rfl

/-- C8, as stated, fails: the transform does not hand an object `{ r, g, b, a }` back.
Whatever the parser reads from `{ r: 255, g: 0, b: 0, a: 1 }` with a red channel of at
most 255, the transform returns `r` at most 1, not 255; and the red
`{ r: 1, g: 0, b: 0, a: 1 }` comes back as `{ r: 1/255, g: 0, b: 0, a: 1 }`. -/
theorem C8_object_is_rescaled_counterexample :
    isRgbaShaped (rgbaObject (.fin 255) (.fin 0) (.fin 0) (.fin 1)) = true ∧
    (∀ (rt : Runtime) (R G B : ℚ) (A : JSNumber),
      rt.tinycolorToRgb (rgbaObject (.fin 255) (.fin 0) (.fin 0) (.fin 1)) =
        ⟨.fin R, .fin G, .fin B, A⟩ → R ≤ 255 →
      figmaColorTransform rt (sourceToken ["primary"] "tokens/primary.json" (.str "color")
          (rgbaObject (.fin 255) (.fin 0) (.fin 0) (.fin 1))) ≠
        rgbaObject (.fin 255) (.fin 0) (.fin 0) (.fin 1)) ∧
    isRgbaShaped (rgbaObject (.fin 1) (.fin 0) (.fin 0) (.fin 1)) = true ∧
    figmaColorTransform sampleRuntime (sourceToken ["primary"] "tokens/primary.json"
        (.str "color") (rgbaObject (.fin 1) (.fin 0) (.fin 0) (.fin 1))) =
      rgbaObject (.fin (1 / 255)) (.fin 0) (.fin 0) (.fin 1) ∧
    rgbaObject (.fin (1 / 255)) (.fin 0) (.fin 0) (.fin 1) ≠
      rgbaObject (.fin 1) (.fin 0) (.fin 0) (.fin 1) := by
  refine ⟨by decide, ?_, by decide, ?_, ?_⟩
  · intro rt R G B A hparse hR heq
    have hout : figmaColorTransform rt (sourceToken ["primary"] "tokens/primary.json"
        (.str "color") (rgbaObject (.fin 255) (.fin 0) (.fin 0) (.fin 1))) =
        scaledColor (rt.tinycolorToRgb (rgbaObject (.fin 255) (.fin 0) (.fin 0) (.fin 1))) :=
      rfl
    rw [hout, hparse] at heq
    simp only [scaledColor, rgbaObject, JSNumber.div] at heq
    norm_num at heq
    have h1 : R = 255 * 255 := by
      have := heq.1
      field_simp at this
      linarith
    rw [h1] at hR
    norm_num at hR
  · have hparse : sampleRuntime.tinycolorToRgb (rgbaObject (.fin 1) (.fin 0) (.fin 0) (.fin 1)) =
        ⟨.fin 1, .fin 0, .fin 0, .fin 1⟩ := by
      simp [sampleRuntime, rgbObjectChannels, rgbaObject, List.lookup]
    have hout : figmaColorTransform sampleRuntime (sourceToken ["primary"]
        "tokens/primary.json" (.str "color") (rgbaObject (.fin 1) (.fin 0) (.fin 0) (.fin 1))) =
        scaledColor (sampleRuntime.tinycolorToRgb
          (rgbaObject (.fin 1) (.fin 0) (.fin 0) (.fin 1))) := rfl
    rw [hout, hparse]
    simp [scaledColor, JSNumber.div]
  · simp [rgbaObject]

/-- C8, amended: for a token whose original value is an object shaped
`{ r, g, b, a }`, the `figma/color` transform hands the object to the color parser
and returns the channels the parser reads, with `r`, `g`, `b` divided by 255 and `a`
kept; it does not return the object itself. -/
theorem C8_object_is_parsed_and_scaled (rt : Runtime) (tok : Token)
    (h : isRgbaShaped tok.original.dollarValue = true) :
    figmaColorTransform rt tok = scaledColor (rt.tinycolorToRgb tok.original.dollarValue) := by
  unfold figmaColorTransform
  cases hv : tok.original.dollarValue with
  | obj fields => simp [JSValue.toBoolean]
  | _ => rw [hv] at h; simp [isRgbaShaped] at h

theorem C8_object_is_parsed_and_scaled_witness :
    figmaColorTransform sampleRuntime (sourceToken ["primary"] "tokens/primary.json"
        (.str "color") (rgbaObject (.fin 1) (.fin 0) (.fin 0) (.fin 1))) =
      scaledColor (sampleRuntime.tinycolorToRgb
        (rgbaObject (.fin 1) (.fin 0) (.fin 0) (.fin 1))) :=
  C8_object_is_parsed_and_scaled sampleRuntime (sourceToken ["primary"] "tokens/primary.json"
    (.str "color") (rgbaObject (.fin 1) (.fin 0) (.fin 0) (.fin 1))) (by decide)

/-- In the color branch of the formatter a string value is parsed, an array or an
object of any shape is assigned as it is, and every other value (`undefined`, `null`,
a boolean, a number, a function) gives opaque black. -/
theorem variableValue_color_cases (rt : Runtime) (tok : Token)
    (ht : tok.dollarType = .str "color") :
    (∀ s, tok.dollarValue = .str s →
      variableValue rt tok = .ok (scaledColor (rt.tinycolorToRgb (.str s)))) ∧
    (∀ xs, tok.dollarValue = .arr xs → variableValue rt tok = .ok (.arr xs)) ∧
    (∀ fields, tok.dollarValue = .obj fields → variableValue rt tok = .ok (.obj fields)) ∧
    ((tok.dollarValue = .undefined ∨ tok.dollarValue = .null ∨
        (∃ b, tok.dollarValue = .bool b) ∨ (∃ n, tok.dollarValue = .num n) ∨
        (∃ f, tok.dollarValue = .fn f)) →
      variableValue rt tok = .ok opaqueBlack) ∧
    (∀ c : Rgba, isRgbaShaped (scaledColor c) = true) ∧ isRgbaShaped opaqueBlack = true := by
  refine ⟨?_, ?_, ?_, ?_, fun _ => rfl, rfl⟩
  · intro s h
    unfold variableValue
    simp [ht, h, JSValue.strictEqStr, JSValue.typeof, pure_eq_ok]
  · intro xs h
    unfold variableValue
    simp [ht, h, JSValue.strictEqStr, JSValue.typeof, JSValue.toBoolean, pure_eq_ok]
  · intro fields h
    unfold variableValue
    simp [ht, h, JSValue.strictEqStr, JSValue.typeof, JSValue.toBoolean, pure_eq_ok]
  · intro h
    unfold variableValue
    rcases h with h | h | ⟨b, h⟩ | ⟨n, h⟩ | ⟨f, h⟩ <;>
      simp [ht, h, JSValue.strictEqStr, JSValue.typeof, JSValue.toBoolean, pure_eq_ok]

/-- C9 fails on the code: the guard `resolvedValue && typeof resolvedValue === 'object'`
does not look at the shape of the object, although the comments beside it speak of
"an object (RGB)" and of a fallback to black.  For a color token whose value is the
array `[]` the formatter emits the array, and for the object `{ hex: "#ffffff" }` it
emits that object; neither is opaque black nor a record of four channels, while a
number does give opaque black. -/
theorem C9_unshaped_object_emitted_as_color :
    (∀ rt, variableValue rt
        (sourceToken ["primary"] "tokens/primary.json" (.str "color") (.arr [])) =
      .ok (.arr [])) ∧
    (∀ rt, buildVariable rt
        (sourceToken ["primary"] "tokens/primary.json" (.str "color") (.arr [])) =
      .ok ⟨"primary", "COLOR", .arr []⟩) ∧
    JSValue.arr [] ≠ opaqueBlack ∧ isRgbaShaped (.arr []) = false ∧
    (∀ rt, variableValue rt (sourceToken ["primary"] "tokens/primary.json" (.str "color")
        (.obj [("hex", .str "#ffffff")])) =
      .ok (.obj [("hex", .str "#ffffff")])) ∧
    JSValue.obj [("hex", .str "#ffffff")] ≠ opaqueBlack ∧
    isRgbaShaped (.obj [("hex", .str "#ffffff")]) = false ∧
    (∀ rt, variableValue rt
        (sourceToken ["primary"] "tokens/primary.json" (.str "color") (.num (.fin 7))) =
      .ok opaqueBlack) := by
  refine ⟨fun _ => rfl, fun _ => rfl, ?_, by decide, fun _ => rfl, ?_, by decide, ?_⟩
  · simp [opaqueBlack, rgbaObject]
  · simp [opaqueBlack, rgbaObject]
  · intro rt
    exact (variableValue_color_cases rt _ rfl).2.2.2.1
      (Or.inr (Or.inr (Or.inr (Or.inl ⟨_, rfl⟩))))

/-! ## C10: dimensions -/

theorem digit_bounds (c : Char) (h : isDecimalDigit c = true) : 48 ≤ c.toNat ∧ c.toNat ≤ 57 := by
  simpa [isDecimalDigit] using h

theorem digit_ne_of_toNat (c d : Char) (h : isDecimalDigit c = true)
    (hd : d.toNat < 48 ∨ 57 < d.toNat) : c ≠ d := by
  rintro rfl
  have := digit_bounds c h
  omega

theorem digit_not_whiteSpace (c : Char) (h : isDecimalDigit c = true) :
    isStrWhiteSpace c = false := by
  have hb := digit_bounds c h
  simp only [isStrWhiteSpace, Bool.or_eq_false_iff, Bool.and_eq_false_iff, beq_eq_false_iff_ne,
    decide_eq_false_iff_not]
  omega

theorem takeWhile_digits (ds rest : List Char) (hds : ∀ c ∈ ds, isDecimalDigit c = true)
    (hrest : ∀ c r, rest = c :: r → isDecimalDigit c = false) :
    (ds ++ rest).takeWhile isDecimalDigit = ds ∧ (ds ++ rest).dropWhile isDecimalDigit = rest := by
  induction ds with
  | nil =>
    cases rest with
    | nil => exact ⟨rfl, rfl⟩
    | cons c r =>
      have := hrest c r rfl
      simp [List.takeWhile, List.dropWhile, this]
  | cons d ds ih =>
    have hd := hds d (List.mem_cons_self d ds)
    have ih2 := ih (fun c hc => hds c (List.mem_cons_of_mem d hc))
    simp [List.takeWhile, List.dropWhile, hd, ih2.1, ih2.2]

theorem digitsToNat_foldl (ds : List Char) :
    ∀ acc : Nat, ds.foldl (fun acc c => 10 * acc + (c.toNat - 48)) acc =
      acc * 10 ^ ds.length + digitsToNat ds := by
  induction ds with
  | nil => intro acc; simp [digitsToNat]
  | cons d ds ih =>
    intro acc
    simp only [List.foldl_cons, List.length_cons, digitsToNat]
    rw [ih, ih (10 * 0 + (d.toNat - 48))]
    ring

theorem digitsToNat_append (a b : List Char) :
    digitsToNat (a ++ b) = digitsToNat a * 10 ^ b.length + digitsToNat b := by
  unfold digitsToNat
  rw [List.foldl_append, digitsToNat_foldl b]
  rfl

theorem replaceFirst_px_suffix (l : List Char) (h : ∀ c ∈ l, c ≠ 'p') :
    replaceFirst (l ++ ['p', 'x']) ['p', 'x'] [] = l := by
  induction l with
  | nil => rfl
  | cons c cs ih =>
    have hc : c ≠ 'p' := h c (List.mem_cons_self c cs)
    have hc2 : ('p' == c) = false := by
      simpa using fun e => hc e.symm
    simp only [List.cons_append, replaceFirst, List.isPrefixOf, hc2, Bool.false_and]
    simp only [Bool.false_eq_true, if_false]
    exact congrArg (List.cons c) (ih (fun d hd => h d (List.mem_cons_of_mem c hd)))

theorem parseUnsignedDecimal_numeral (int frac : List Char) (hint : int ≠ [])
    (hi : ∀ c ∈ int, isDecimalDigit c = true) (hf : ∀ c ∈ frac, isDecimalDigit c = true) :
    parseUnsignedDecimal (int ++ (if frac.isEmpty then [] else '.' :: frac)) =
      some (digitsToNat (int ++ frac), -(frac.length : Int)) := by
  have hne : int.isEmpty = false := by
    cases int with
    | nil => exact absurd rfl hint
    | cons _ _ => rfl
  cases frac with
  | nil =>
    have h := takeWhile_digits int [] hi (fun c r e => by cases e)
    simp only [List.append_nil] at h
    simp [parseUnsignedDecimal, h.1, h.2, hne, exponentPart]
  | cons f fs =>
    have h := takeWhile_digits int ('.' :: f :: fs) hi (fun c r e => by
      cases e
      decide)
    have h2 := takeWhile_digits (f :: fs) [] hf (fun c r e => by cases e)
    simp only [List.append_nil] at h2
    simp only [List.isEmpty_cons, Bool.false_eq_true, if_false]
    simp only [parseUnsignedDecimal, h.1, h.2, h2.1, h2.2, hne, exponentPart]
    simp

/-! ### Rounding to binary64 -/

theorem roundHalfEven_intCast (n : ℤ) : roundHalfEven (n : ℚ) = n := by
  simp [roundHalfEven]

theorem log_two_eq (a : ℚ) (e : ℤ) (h1 : (2 : ℚ) ^ e ≤ a) (h2 : a < (2 : ℚ) ^ (e + 1)) :
    Int.log 2 a = e := by
  have ha : 0 < a := lt_of_lt_of_le (zpow_pos (by norm_num) e) h1
  have hle : e ≤ Int.log 2 a := (Int.zpow_le_iff_le_log (by norm_num) ha).mp (by simpa using h1)
  have hlt : Int.log 2 a < e + 1 := (Int.lt_zpow_iff_log_lt (by norm_num) ha).mp (by simpa using h2)
  omega

/-- The value of `toNumber` once the binade and the rounded significand are known. -/
theorem toNumber_of_binade (q : ℚ) (e n : ℤ) (h1 : (2 : ℚ) ^ e ≤ |q|)
    (h2 : |q| < (2 : ℚ) ^ (e + 1)) (hmin : -1022 ≤ e)
    (hn : roundHalfEven (|q| / (2 : ℚ) ^ (e - 52)) = n)
    (hlt : (n : ℚ) * (2 : ℚ) ^ (e - 52) < (2 : ℚ) ^ (1024 : ℤ)) :
    toNumber q = .fin (if q < 0 then -((n : ℚ) * (2 : ℚ) ^ (e - 52)) else (n : ℚ) * (2 : ℚ) ^ (e - 52)) := by
  have hq : q ≠ 0 := by
    intro h
    rw [h] at h1
    have : (0 : ℚ) < (2 : ℚ) ^ e := zpow_pos (by norm_num) e
    simp at h1
    linarith
  have hlog := log_two_eq |q| e h1 h2
  have hmax : max e (-1022) = e := max_eq_left hmin
  simp only [toNumber, hq, if_false, hlog, hmax, hn]
  rw [if_neg (not_le.mpr hlt)]

theorem floor_le_roundHalfEven (m : ℚ) : ⌊m⌋ ≤ roundHalfEven m := by
  unfold roundHalfEven
  split
  · exact le_refl _
  · split
    · omega
    · split <;> omega

theorem toNumber_dyadic_pos (q : ℚ) (n j : ℕ) (hn0 : 0 < n) (hn : n < 2 ^ 53) (hj : j ≤ 1022)
    (hq : |q| = (n : ℚ) / (2 : ℚ) ^ j) : toNumber q = .fin q := by
  have hJ : (0 : ℚ) < (2 : ℚ) ^ j := pow_pos (by norm_num) j
  have hLle : 2 ^ Nat.log 2 n ≤ n := Nat.pow_log_le_self 2 (by omega)
  have hLlt : n < 2 ^ (Nat.log 2 n + 1) := Nat.lt_pow_succ_log_self (by norm_num) n
  have hL : Nat.log 2 n ≤ 52 := by
    by_contra h
    have h53 : 53 ≤ Nat.log 2 n := by omega
    have : 2 ^ 53 ≤ 2 ^ Nat.log 2 n := Nat.pow_le_pow_right (by norm_num) h53
    omega
  obtain ⟨k, hk⟩ : ∃ k, 52 = Nat.log 2 n + k := ⟨52 - Nat.log 2 n, by omega⟩
  have hP : (0 : ℚ) < (2 : ℚ) ^ Nat.log 2 n := pow_pos (by norm_num) _
  have hLle' : ((2 : ℚ) ^ Nat.log 2 n) ≤ (n : ℚ) := by exact_mod_cast hLle
  have hLlt' : (n : ℚ) < 2 * (2 : ℚ) ^ Nat.log 2 n := by
    have : (n : ℚ) < (2 : ℚ) ^ (Nat.log 2 n + 1) := by exact_mod_cast hLlt
    rw [pow_succ] at this
    linarith
  have hz1 : (2 : ℚ) ^ ((Nat.log 2 n : ℤ) - (j : ℤ)) = (2 : ℚ) ^ Nat.log 2 n / (2 : ℚ) ^ j := by
    rw [zpow_sub₀ (by norm_num), zpow_natCast, zpow_natCast]
  have hz2 : (2 : ℚ) ^ ((Nat.log 2 n : ℤ) - (j : ℤ) + 1) =
      2 * (2 : ℚ) ^ Nat.log 2 n / (2 : ℚ) ^ j := by
    rw [zpow_add_one₀ (by norm_num), hz1]
    ring
  have hz3 : (2 : ℚ) ^ ((Nat.log 2 n : ℤ) - (j : ℤ) - 52) =
      (2 : ℚ) ^ Nat.log 2 n / (2 : ℚ) ^ j / (2 : ℚ) ^ 52 := by
    rw [zpow_sub₀ (by norm_num), hz1]
    norm_num
  have h52 : (2 : ℚ) ^ 52 = (2 : ℚ) ^ Nat.log 2 n * (2 : ℚ) ^ k := by
    rw [← pow_add, ← hk]
  have hm : |q| / (2 : ℚ) ^ ((Nat.log 2 n : ℤ) - (j : ℤ) - 52) = (((n * 2 ^ k : ℕ) : ℤ) : ℚ) := by
    rw [hz3, hq, h52]
    push_cast
    field_simp
    ring
  have hval : (((n * 2 ^ k : ℕ) : ℤ) : ℚ) * (2 : ℚ) ^ ((Nat.log 2 n : ℤ) - (j : ℤ) - 52) = |q| := by
    rw [← hm]
    have : (2 : ℚ) ^ ((Nat.log 2 n : ℤ) - (j : ℤ) - 52) ≠ 0 := zpow_ne_zero _ (by norm_num)
    field_simp
  have hqle : |q| < (2 : ℚ) ^ (1024 : ℤ) := by
    have h1 : |q| ≤ (n : ℚ) := by
      rw [hq]
      apply div_le_self (by positivity)
      exact one_le_pow₀ (by norm_num)
    have h2 : (n : ℚ) < (2 : ℚ) ^ 53 := by exact_mod_cast hn
    have h3 : (2 : ℚ) ^ 53 < (2 : ℚ) ^ (1024 : ℤ) := by norm_num
    linarith
  have h := toNumber_of_binade q ((Nat.log 2 n : ℤ) - (j : ℤ)) ((n * 2 ^ k : ℕ) : ℤ)
    (by rw [hz1, hq]; exact div_le_div_of_nonneg_right hLle' hJ.le)
    (by rw [hz2, hq]; exact div_lt_div_of_pos_right hLlt' hJ)
    (by omega)
    (by rw [hm]; exact roundHalfEven_intCast _)
    (by rw [hval]; exact hqle)
  rw [h, hval]
  congr 1
  split
  · rename_i hneg; rw [abs_of_neg hneg]; ring
  · rename_i hpos; exact abs_of_nonneg (not_lt.mp hpos)

/-- Beyond the range of binary64 the rounding is an infinity. -/
theorem toNumber_overflow (q : ℚ) (h : (2 : ℚ) ^ (1024 : ℤ) ≤ |q|) :
    toNumber q = if q < 0 then .negInf else .posInf := by
  have hpos : 0 < |q| := lt_of_lt_of_le (zpow_pos (by norm_num) _) h
  have hq : q ≠ 0 := abs_pos.mp hpos
  have hlog : (1024 : ℤ) ≤ Int.log 2 |q| :=
    (Int.zpow_le_iff_le_log (by norm_num) hpos).mp (by simpa using h)
  have hmax : max (Int.log 2 |q|) (-1022) = Int.log 2 |q| := max_eq_left (by omega)
  have hself : (2 : ℚ) ^ Int.log 2 |q| ≤ |q| := by
    simpa using Int.zpow_log_le_self (b := 2) (by norm_num) hpos
  have hulp : (0 : ℚ) < (2 : ℚ) ^ (Int.log 2 |q| - 52) := zpow_pos (by norm_num) _
  have hsplit : (2 : ℚ) ^ Int.log 2 |q| = (2 : ℚ) ^ (52 : ℕ) * (2 : ℚ) ^ (Int.log 2 |q| - 52) := by
    rw [← zpow_natCast, ← zpow_add₀ (by norm_num)]
    congr 1
    push_cast
    ring
  have hm : (((2 ^ 52 : ℤ)) : ℚ) ≤ |q| / (2 : ℚ) ^ (Int.log 2 |q| - 52) := by
    have hc : (((2 ^ 52 : ℤ)) : ℚ) = (2 : ℚ) ^ (52 : ℕ) := by norm_num
    rw [le_div_iff₀ hulp, hc, ← hsplit]
    exact hself
  have hfloor : (2 ^ 52 : ℤ) ≤ ⌊|q| / (2 : ℚ) ^ (Int.log 2 |q| - 52)⌋ := Int.le_floor.mpr hm
  have hround := le_trans hfloor (floor_le_roundHalfEven _)
  have hr : (2 : ℚ) ^ (1024 : ℤ) ≤
      (roundHalfEven (|q| / (2 : ℚ) ^ (Int.log 2 |q| - 52)) : ℚ) *
        (2 : ℚ) ^ (Int.log 2 |q| - 52) := by
    have h1 : (2 : ℚ) ^ (1024 : ℤ) ≤ (2 : ℚ) ^ Int.log 2 |q| :=
      zpow_le_zpow_right₀ (by norm_num) hlog
    have h2 : ((2 ^ 52 : ℤ) : ℚ) ≤ (roundHalfEven (|q| / (2 : ℚ) ^ (Int.log 2 |q| - 52)) : ℚ) := by
      exact_mod_cast hround
    calc (2 : ℚ) ^ (1024 : ℤ) ≤ (2 : ℚ) ^ Int.log 2 |q| := h1
      _ = (2 : ℚ) ^ (52 : ℕ) * (2 : ℚ) ^ (Int.log 2 |q| - 52) := hsplit
      _ ≤ _ := by
        have hc : (((2 ^ 52 : ℤ)) : ℚ) = (2 : ℚ) ^ (52 : ℕ) := by norm_num
        rw [hc] at h2
        exact mul_le_mul_of_nonneg_right h2 hulp.le
  simp only [toNumber, hq, if_false, hmax]
  rw [if_pos hr]

/-- A tie between two doubles goes to the one with the even significand. -/
theorem toNumber_tie : toNumber 9007199254740993 = .fin 9007199254740992 := by
  have habs : |(9007199254740993 : ℚ)| = 9007199254740993 := abs_of_pos (by norm_num)
  have hf : ⌊(9007199254740993 : ℚ) / 2⌋ = 4503599627370496 := by
    rw [Int.floor_eq_iff]
    norm_num
  have h := toNumber_of_binade 9007199254740993 53 4503599627370496
    (by rw [habs]; norm_num) (by rw [habs]; norm_num) (by norm_num)
    (by
      rw [habs]
      have he : ((53 : ℤ) - 52) = 1 := by norm_num
      rw [he, zpow_one]
      unfold roundHalfEven
      rw [hf]
      norm_num)
    (by norm_num)
  rw [h]
  norm_num

/-- A rational `n / 2 ^ j` with `n` below `2 ^ 53` and `j` at most `1022`, of either
sign, is a double: rounding leaves it as it is.  Every integer of magnitude below
`2 ^ 53` is of this form. -/
theorem toNumber_dyadic (q : ℚ) (n j : ℕ) (hn : n < 2 ^ 53) (hj : j ≤ 1022)
    (hq : |q| = (n : ℚ) / (2 : ℚ) ^ j) : toNumber q = .fin q := by
  rcases Nat.eq_zero_or_pos n with h0 | hpos
  · have hq0 : q = 0 := by
      rw [h0] at hq
      simpa using hq
    rw [hq0]
    simp [toNumber]
  · exact toNumber_dyadic_pos q n j hpos hn hj hq

/-! ### Reading a numeral -/

theorem parseFloat_body (neg : Bool) (c : Char) (r : List Char)
    (hc : isDecimalDigit c = true) (m : Nat) (e : Int)
    (hp : parseUnsignedDecimal (c :: r) = some (m, e)) :
    parseFloat ⟨(if neg then ['-'] else []) ++ c :: r⟩ =
      toNumber ((if neg then -1 else 1) * (m : ℚ) * (10 : ℚ) ^ e) := by
  have hws : isStrWhiteSpace c = false := digit_not_whiteSpace c hc
  have hminus : c ≠ '-' := digit_ne_of_toNat c '-' hc (by decide)
  have hplus : c ≠ '+' := digit_ne_of_toNat c '+' hc (by decide)
  have hI : ('I' == c) = false := by
    have : c ≠ 'I' := digit_ne_of_toNat c 'I' hc (by decide)
    simpa using fun h => this h.symm
  have hstrip : stripSign (c :: r) = c :: r := by
    unfold stripSign
    split
    · rename_i h; cases h; exact absurd rfl hplus
    · rename_i h; cases h; exact absurd rfl hminus
    · rfl
  have hinf : List.isPrefixOf "Infinity".data (c :: r) = false := by
    show List.isPrefixOf ['I', 'n', 'f', 'i', 'n', 'i', 't', 'y'] (c :: r) = false
    simp [List.isPrefixOf, hI]
  cases neg with
  | true =>
    have hdrop : List.dropWhile isStrWhiteSpace ('-' :: c :: r) = '-' :: c :: r := by
      have : isStrWhiteSpace '-' = false := by decide
      simp [List.dropWhile, this]
    simp only [parseFloat, if_true, List.singleton_append, hdrop]
    have hs : stripSign ('-' :: c :: r) = c :: r := rfl
    simp [hs, hinf, hp]
  | false =>
    have hdrop : List.dropWhile isStrWhiteSpace (c :: r) = c :: r := by
      simp [List.dropWhile, hws]
    simp only [parseFloat, Bool.false_eq_true, if_false, List.nil_append, hdrop]
    simp [hstrip, hinf, hp, hminus]

/-- The model of `parseFloat` reads a decimal numeral as the rounding of the number
it denotes. -/
theorem parseFloat_numeral (neg : Bool) (int frac : List Char) (hint : int ≠ [])
    (hi : ∀ c ∈ int, isDecimalDigit c = true) (hf : ∀ c ∈ frac, isDecimalDigit c = true) :
    parseFloat ⟨numeralText neg int frac⟩ = toNumber (numeralValue neg int frac) := by
  cases int with
  | nil => exact absurd rfl hint
  | cons c cs =>
    have hp := parseUnsignedDecimal_numeral (c :: cs) frac hint hi hf
    have hc := hi c (List.mem_cons_self c cs)
    have h := parseFloat_body neg c (cs ++ (if frac.isEmpty then [] else '.' :: frac)) hc _ _ hp
    have htext : numeralText neg (c :: cs) frac =
        (if neg then ['-'] else []) ++ c :: (cs ++ (if frac.isEmpty then [] else '.' :: frac)) := by
      simp [numeralText]
    rw [htext, h]
    congr 1
    rw [digitsToNat_append]
    unfold numeralValue
    have h10 : ((10 : ℚ) ^ frac.length) ≠ 0 := pow_ne_zero _ (by norm_num)
    rw [zpow_neg, zpow_natCast]
    push_cast
    field_simp

theorem numeralText_no_p (neg : Bool) (int frac : List Char)
    (hi : ∀ c ∈ int, isDecimalDigit c = true) (hf : ∀ c ∈ frac, isDecimalDigit c = true) :
    ∀ c ∈ numeralText neg int frac, c ≠ 'p' := by
  intro c hc
  have hdig : ∀ d, isDecimalDigit d = true → d ≠ 'p' :=
    fun d hd => digit_ne_of_toNat d 'p' hd (by decide)
  unfold numeralText at hc
  simp only [List.mem_append] at hc
  rcases hc with (hc | hc) | hc
  · cases neg with
    | true =>
      simp only [if_true, List.mem_singleton] at hc
      rw [hc]
      decide
    | false => simp at hc
  · exact hdig c (hi c hc)
  · cases hfr : frac.isEmpty with
    | true => simp [hfr] at hc
    | false =>
      simp only [hfr, Bool.false_eq_true, if_false, List.mem_cons] at hc
      rcases hc with rfl | hc
      · decide
      · exact hdig c (hf c hc)

theorem jsReplace_px_numeral (neg : Bool) (int frac : List Char)
    (hi : ∀ c ∈ int, isDecimalDigit c = true) (hf : ∀ c ∈ frac, isDecimalDigit c = true) :
    jsReplace (String.mk (numeralText neg int frac) ++ "px") "px" "" =
      String.mk (numeralText neg int frac) := by
  unfold jsReplace
  congr 1
  exact replaceFirst_px_suffix _ (numeralText_no_p neg int frac hi hf)

/-- A dimension string made of a decimal numeral and `px`: both the transform and the
dimension branch of the formatter return the rounding of the number the numeral
denotes. -/
theorem dimension_of_numeral (rt : Runtime) (neg : Bool) (int frac : List Char)
    (hint : int ≠ []) (hi : ∀ c ∈ int, isDecimalDigit c = true)
    (hf : ∀ c ∈ frac, isDecimalDigit c = true) :
    (∀ tok : Token, tok.dollarValue = .str (String.mk (numeralText neg int frac) ++ "px") →
      figmaDimensionTransform tok = .ok (.num (toNumber (numeralValue neg int frac)))) ∧
    (∀ tok : Token, tok.dollarType = .str "dimension" →
      tok.dollarValue = .str (String.mk (numeralText neg int frac) ++ "px") →
      variableValue rt tok = .ok (.num (toNumber (numeralValue neg int frac)))) := by
  have hrep := jsReplace_px_numeral neg int frac hi hf
  have hpf := parseFloat_numeral neg int frac hint hi hf
  constructor
  · intro tok hv
    unfold figmaDimensionTransform
    simp only [hv, JSValue.toBoolean, hrep, hpf]
    simp [pure_eq_ok]
  · intro tok ht hv
    unfold variableValue
    simp only [ht, hv, hrep, hpf]
    simp [JSValue.strictEqStr, pure_eq_ok]

theorem digitsToNat_zeros (k : ℕ) : digitsToNat (List.replicate k '0') = 0 := by
  induction k with
  | zero => rfl
  | succ k ih =>
    have h := digitsToNat_append ['0'] (List.replicate k '0')
    have h0 : digitsToNat ['0'] = 0 := by decide
    rw [List.replicate_succ]
    simpa [h0, ih] using h

theorem digitsToNat_one_zeros (k : ℕ) : digitsToNat ('1' :: List.replicate k '0') = 10 ^ k := by
  have h := digitsToNat_append ['1'] (List.replicate k '0')
  have h1 : digitsToNat ['1'] = 1 := by decide
  simpa [h1, digitsToNat_zeros] using h

/-- C10, as stated, fails: the result is a binary64 number, not always the number the
numeral denotes.  For `9007199254740993px` (which denotes `2^53 + 1`) the transform
and the formatter return `9007199254740992`; for a `1` followed by 309 zeros and `px`
(which denotes `10^309`) they return `Infinity`. -/
theorem C10_numeral_beyond_double_counterexample :
    numeralValue false "9007199254740993".data [] = 9007199254740993 ∧
    figmaDimensionTransform (sourceToken ["space", "md"] "tokens/space.json"
        (.str "dimension") (.str "9007199254740993px")) =
      .ok (.num (.fin 9007199254740992)) ∧
    (∀ rt, variableValue rt (sourceToken ["space", "md"] "tokens/space.json"
        (.str "dimension") (.str "9007199254740993px")) =
      .ok (.num (.fin 9007199254740992))) ∧
    JSNumber.fin 9007199254740992 ≠ .fin 9007199254740993 ∧
    numeralValue false ('1' :: List.replicate 309 '0') [] = 10 ^ 309 ∧
    figmaDimensionTransform (sourceToken ["space", "md"] "tokens/space.json"
        (.str "dimension") (.str (String.mk ('1' :: List.replicate 309 '0') ++ "px"))) =
      .ok (.num .posInf) := by
  have hd : digitsToNat "9007199254740993".data = 9007199254740993 := by decide
  have h0 : digitsToNat [] = 0 := rfl
  have hv : numeralValue false "9007199254740993".data [] = 9007199254740993 := by
    norm_num [numeralValue, hd, h0]
  have hbig : numeralValue false ('1' :: List.replicate 309 '0') [] = 10 ^ 309 := by
    norm_num [numeralValue, digitsToNat_one_zeros, h0]
  have hdig : ∀ c ∈ '1' :: List.replicate 309 '0', isDecimalDigit c = true := by
    intro c hc
    simp only [List.mem_cons, List.mem_replicate] at hc
    rcases hc with rfl | ⟨_, rfl⟩ <;> decide
  have hnum := fun rt => dimension_of_numeral rt false "9007199254740993".data []
    (by decide) (by decide) (by simp)
  have hinf := (dimension_of_numeral sampleRuntime false ('1' :: List.replicate 309 '0') []
    (List.cons_ne_nil _ _) hdig (fun c hc => by cases hc)).1
  refine ⟨hv, ?_, ?_, ?_, hbig, ?_⟩
  · rw [(hnum sampleRuntime).1 _ rfl, hv, toNumber_tie]
  · intro rt
    rw [(hnum rt).2 _ rfl rfl, hv, toNumber_tie]
  · intro h
    have := JSNumber.fin.inj h
    norm_num at this
  · have hgen : ∀ l : List Char, numeralText false l [] = l := by
      intro l
      simp [numeralText]
    have htext := hgen ('1' :: List.replicate 309 '0')
    have h := hinf (sourceToken ["space", "md"] "tokens/space.json" (.str "dimension")
      (.str (String.mk ('1' :: List.replicate 309 '0') ++ "px"))) (by rw [htext]; rfl)
    rw [h, hbig, toNumber_overflow _ (by rw [abs_of_pos (by positivity)]; norm_num)]
    norm_num

/-- C10, amended: for a dimension string made of a decimal numeral (an optional minus
sign, digits, and optionally a point and more digits) immediately followed by `px`,
the `figma/dimension` transform and the dimension branch of the formatter both return
the binary64 rounding of the number the numeral denotes; that is the denoted number
itself whenever it is `n / 2 ^ j` with `n` below `2 ^ 53` and `j` at most `1022`, as
for `16` and `1.5`. -/
theorem C10_px_dimension_rounded (rt : Runtime) (neg : Bool) (int frac : List Char)
    (hint : int ≠ []) (hi : ∀ c ∈ int, isDecimalDigit c = true)
    (hf : ∀ c ∈ frac, isDecimalDigit c = true) :
    (∀ tok : Token, tok.dollarValue = .str (String.mk (numeralText neg int frac) ++ "px") →
      figmaDimensionTransform tok = .ok (.num (toNumber (numeralValue neg int frac)))) ∧
    (∀ tok : Token, tok.dollarType = .str "dimension" →
      tok.dollarValue = .str (String.mk (numeralText neg int frac) ++ "px") →
      variableValue rt tok = .ok (.num (toNumber (numeralValue neg int frac)))) ∧
    (∀ n j : ℕ, n < 2 ^ 53 → j ≤ 1022 →
      |numeralValue neg int frac| = (n : ℚ) / (2 : ℚ) ^ j →
      toNumber (numeralValue neg int frac) = .fin (numeralValue neg int frac)) := by
  have h := dimension_of_numeral rt neg int frac hint hi hf
  exact ⟨h.1, h.2, fun n j hn hj hq => toNumber_dyadic _ n j hn hj hq⟩

theorem C10_px_dimension_rounded_witness :
    figmaDimensionTransform
        (sourceToken ["space", "md"] "tokens/space.json" (.str "dimension") (.str "16px")) =
      .ok (.num (.fin 16)) ∧
    variableValue sampleRuntime
        (sourceToken ["space", "xs"] "tokens/space.json" (.str "dimension") (.str "1.5px")) =
      .ok (.num (.fin (3 / 2))) := by
  have h16 : digitsToNat ['1', '6'] = 16 := by decide
  have h1 : digitsToNat ['1'] = 1 := by decide
  have h5 : digitsToNat ['5'] = 5 := by decide
  have h0 : digitsToNat [] = 0 := rfl
  have hv16 : numeralValue false ['1', '6'] [] = 16 := by norm_num [numeralValue, h16, h0]
  have hv15 : numeralValue false ['1'] ['5'] = 3 / 2 := by norm_num [numeralValue, h1, h5]
  constructor
  · have h := C10_px_dimension_rounded sampleRuntime false ['1', '6'] [] (by simp)
      (by decide) (by simp)
    rw [h.1 (sourceToken ["space", "md"] "tokens/space.json" (.str "dimension")
      (.str "16px")) rfl, h.2.2 16 0 (by norm_num) (by norm_num) (by rw [hv16]; norm_num), hv16]
  · have h := C10_px_dimension_rounded sampleRuntime false ['1'] ['5'] (by simp)
      (by decide) (by decide)
    rw [h.2.1 (sourceToken ["space", "xs"] "tokens/space.json" (.str "dimension")
      (.str "1.5px")) rfl rfl, h.2.2 3 1 (by norm_num) (by norm_num)
      (by rw [hv15]; norm_num [abs_of_pos]), hv15]

/-! ## C11 and C12: font weights -/

theorem key_ne_of_head (key lit : String) (c d : Char) (r : List Char)
    (hk : key.data = c :: r) (hl : lit.data.head? = some d) (hne : d ≠ c) :
    (key == lit) = false := by
  rw [beq_eq_false_iff_ne]
  intro h
  rw [← h, hk] at hl
  exact hne (Option.some.inj hl).symm

/-- A key that starts with a digit or a minus sign is no property of `weightMap`,
own or inherited. -/
theorem weightMapGet_numeral (key : String) (c : Char) (r : List Char)
    (hk : key.data = c :: r) (hc : isDecimalDigit c = true ∨ c = '-') :
    weightMapGet key = .undefined := by
  have hcne : ∀ d : Char, isDecimalDigit d = false → d ≠ '-' → d ≠ c := by
    intro d hd hm e
    subst e
    rcases hc with h | h
    · rw [h] at hd; cases hd
    · exact hm h
  have hlit : ∀ (lit : String) (d : Char), lit.data.head? = some d →
      isDecimalDigit d = false → d ≠ '-' → (key == lit) = false :=
    fun lit d hl hd hm => key_ne_of_head key lit c d r hk hl (hcne d hd hm)
  have h1 := hlit "normal" 'n' rfl (by decide) (by decide)
  have h2 := hlit "medium" 'm' rfl (by decide) (by decide)
  have h3 := hlit "semibold" 's' rfl (by decide) (by decide)
  have h4 := hlit "bold" 'b' rfl (by decide) (by decide)
  have h5 := hlit "constructor" 'c' rfl (by decide) (by decide)
  have h6 := hlit "hasOwnProperty" 'h' rfl (by decide) (by decide)
  have h7 := hlit "isPrototypeOf" 'i' rfl (by decide) (by decide)
  have h8 := hlit "propertyIsEnumerable" 'p' rfl (by decide) (by decide)
  have h9 := hlit "toLocaleString" 't' rfl (by decide) (by decide)
  have h10 := hlit "toString" 't' rfl (by decide) (by decide)
  have h11 := hlit "valueOf" 'v' rfl (by decide) (by decide)
  have h12 := hlit "__defineGetter__" '_' rfl (by decide) (by decide)
  have h13 := hlit "__defineSetter__" '_' rfl (by decide) (by decide)
  have h14 := hlit "__lookupGetter__" '_' rfl (by decide) (by decide)
  have h15 := hlit "__lookupSetter__" '_' rfl (by decide) (by decide)
  have h16 := hlit "__proto__" '_' rfl (by decide) (by decide)
  simp only [weightMapGet, weightMap, List.lookup, h1, h2, h3, h4, objectPrototypeGet,
    objectPrototypeMethods, List.contains, List.elem, h5, h6, h7, h8, h9, h10, h11, h12, h13,
    h14, h15, h16]
  simp

theorem hexBody_digits (c : Char) (cs : List Char)
    (hi : ∀ d ∈ cs, isDecimalDigit d = true) : hexBody (c :: cs) = none := by
  unfold hexBody
  split
  · rename_i x r heq
    have hx : isDecimalDigit x = true := by
      have hcs : cs = x :: r := (List.cons.inj heq).2
      exact hi x (by rw [hcs]; exact List.mem_cons_self x r)
    have h1 : x ≠ 'x' := digit_ne_of_toNat x 'x' hx (by decide)
    have h2 : x ≠ 'X' := digit_ne_of_toNat x 'X' hx (by decide)
    simp [h1, h2]
  · rfl

/-- The model of `parseInt` reads a run of digits, with or without a minus sign, as
the rounding of the integer it denotes. -/
theorem parseIntString_numeral (neg : Bool) (int : List Char) (hint : int ≠ [])
    (hi : ∀ c ∈ int, isDecimalDigit c = true) :
    parseIntString ⟨numeralText neg int []⟩ =
      toNumber ((if neg then -1 else 1) * (digitsToNat int : ℚ)) := by
  cases int with
  | nil => exact absurd rfl hint
  | cons c cs =>
    have hc := hi c (List.mem_cons_self c cs)
    have hcs : ∀ d ∈ cs, isDecimalDigit d = true :=
      fun d hd => hi d (List.mem_cons_of_mem c hd)
    have hws : isStrWhiteSpace c = false := digit_not_whiteSpace c hc
    have hminus : c ≠ '-' := digit_ne_of_toNat c '-' hc (by decide)
    have hplus : c ≠ '+' := digit_ne_of_toNat c '+' hc (by decide)
    have hstrip : stripSign (c :: cs) = c :: cs := by
      unfold stripSign
      split
      · rename_i h; cases h; exact absurd rfl hplus
      · rename_i h; cases h; exact absurd rfl hminus
      · rfl
    have hhex := hexBody_digits c cs hcs
    have htake := (takeWhile_digits (c :: cs) [] hi (fun d r e => by cases e)).1
    simp only [List.append_nil] at htake
    cases neg with
    | true =>
      have hdrop : List.dropWhile isStrWhiteSpace ('-' :: c :: cs) = '-' :: c :: cs := by
        have : isStrWhiteSpace '-' = false := by decide
        simp [List.dropWhile, this]
      have hs : stripSign ('-' :: c :: cs) = c :: cs := rfl
      have htext : numeralText true (c :: cs) [] = '-' :: c :: cs := by simp [numeralText]
      simp only [parseIntString, htext, hdrop, hs, hhex, htake]
      simp
    | false =>
      have hdrop : List.dropWhile isStrWhiteSpace (c :: cs) = c :: cs := by
        simp [List.dropWhile, hws]
      have htext : numeralText false (c :: cs) [] = c :: cs := by simp [numeralText]
      simp only [parseIntString, htext, hdrop, hstrip, hhex, htake]
      simp [hminus]

theorem weightOrParseInt_numeral (rt : Runtime) (neg : Bool) (int : List Char)
    (hint : int ≠ []) (hi : ∀ c ∈ int, isDecimalDigit c = true) :
    weightOrParseInt rt (.str ⟨numeralText neg int []⟩) =
      .ok (.num (toNumber ((if neg then -1 else 1) * (digitsToNat int : ℚ)))) := by
  have hkey : ∃ c r, (String.mk (numeralText neg int [])).data = c :: r ∧
      (isDecimalDigit c = true ∨ c = '-') := by
    cases int with
    | nil => exact absurd rfl hint
    | cons c cs =>
      cases neg with
      | true => exact ⟨'-', c :: cs, by simp [numeralText], Or.inr rfl⟩
      | false =>
        exact ⟨c, cs, by simp [numeralText], Or.inl (hi c (List.mem_cons_self c cs))⟩
  obtain ⟨c, r, hk, hc⟩ := hkey
  have hget := weightMapGet_numeral _ c r hk hc
  have hparse := parseIntString_numeral neg int hint hi
  simp only [weightOrParseInt, JSValue.toStr, pure_eq_ok, bind, Except.bind, hget,
    JSValue.toBoolean, hparse]
  simp

theorem weightOrParseInt_keyword (rt : Runtime) (kw : String) (n : ℚ)
    (h : (kw, n) ∈ [("normal", (400 : ℚ)), ("medium", 500), ("semibold", 600), ("bold", 700)]) :
    weightOrParseInt rt (.str kw) = .ok (.num (.fin n)) := by
  simp only [List.mem_cons, Prod.mk.injEq, List.mem_singleton, List.not_mem_nil, or_false] at h
  rcases h with ⟨rfl, rfl⟩ | ⟨rfl, rfl⟩ | ⟨rfl, rfl⟩ | ⟨rfl, rfl⟩ <;>
    simp [weightOrParseInt, JSValue.toStr, weightMapGet, weightMap, List.lookup,
      JSValue.toBoolean, pure_eq_ok, bind, Except.bind]

theorem variableValue_fontWeight (rt : Runtime) (tok : Token)
    (ht : tok.dollarType = .str "fontWeight") :
    variableValue rt tok = weightOrParseInt rt tok.dollarValue := by
  unfold variableValue
  simp [ht, JSValue.strictEqStr]

theorem figmaFontWeightTransform_truthy (rt : Runtime) (tok : Token)
    (h : tok.dollarValue.toBoolean = true) :
    figmaFontWeightTransform rt tok = weightOrParseInt rt tok.dollarValue := by
  unfold figmaFontWeightTransform
  simp [h]

/-- A font weight that is a keyword or a run of digits, through the transform and
through the font-weight branch of the formatter. -/
theorem fontWeight_of_keyword_or_numeral (rt : Runtime) :
    (∀ (tok : Token) (kw : String) (n : ℚ),
      (kw, n) ∈ [("normal", (400 : ℚ)), ("medium", 500), ("semibold", 600), ("bold", 700)] →
      tok.dollarValue = .str kw →
      figmaFontWeightTransform rt tok = .ok (.num (.fin n)) ∧
      (tok.dollarType = .str "fontWeight" → variableValue rt tok = .ok (.num (.fin n)))) ∧
    (∀ (tok : Token) (neg : Bool) (int : List Char), int ≠ [] →
      (∀ c ∈ int, isDecimalDigit c = true) →
      tok.dollarValue = .str (String.mk (numeralText neg int [])) →
      figmaFontWeightTransform rt tok =
        .ok (.num (toNumber ((if neg then -1 else 1) * (digitsToNat int : ℚ)))) ∧
      (tok.dollarType = .str "fontWeight" →
        variableValue rt tok =
          .ok (.num (toNumber ((if neg then -1 else 1) * (digitsToNat int : ℚ)))))) := by
  constructor
  · intro tok kw n hmem hv
    have hw := weightOrParseInt_keyword rt kw n hmem
    have htruthy : tok.dollarValue.toBoolean = true := by
      rw [hv]
      simp only [List.mem_cons, Prod.mk.injEq, List.mem_singleton, List.not_mem_nil,
        or_false] at hmem
      rcases hmem with ⟨rfl, _⟩ | ⟨rfl, _⟩ | ⟨rfl, _⟩ | ⟨rfl, _⟩ <;> rfl
    refine ⟨?_, fun ht => ?_⟩
    · rw [figmaFontWeightTransform_truthy rt tok htruthy, hv, hw]
    · rw [variableValue_fontWeight rt tok ht, hv, hw]
  · intro tok neg int hint hi hv
    have hw := weightOrParseInt_numeral rt neg int hint hi
    have htruthy : tok.dollarValue.toBoolean = true := by
      rw [hv]
      cases int with
      | nil => exact absurd rfl hint
      | cons c cs => cases neg <;> simp [JSValue.toBoolean, numeralText]
    refine ⟨?_, fun ht => ?_⟩
    · rw [figmaFontWeightTransform_truthy rt tok htruthy, hv, hw]
    · rw [variableValue_fontWeight rt tok ht, hv, hw]

/-- C11, as stated, fails on long numerals: the result is a binary64 number, not always
the integer the string denotes.  The string `9007199254740993` (which denotes
`2^53 + 1`) gives `9007199254740992`, from the transform and from the formatter. -/
theorem C11_integer_beyond_double_counterexample :
    digitsToNat "9007199254740993".data = 9007199254740993 ∧
    (∀ rt, figmaFontWeightTransform rt (sourceToken ["weight"] "tokens/type.json"
        (.str "fontWeight") (.str "9007199254740993")) =
      .ok (.num (.fin 9007199254740992))) ∧
    (∀ rt, variableValue rt (sourceToken ["weight"] "tokens/type.json"
        (.str "fontWeight") (.str "9007199254740993")) =
      .ok (.num (.fin 9007199254740992))) ∧
    JSNumber.fin 9007199254740992 ≠ .fin 9007199254740993 := by
  have hd : digitsToNat "9007199254740993".data = 9007199254740993 := by decide
  have hnum := fun rt => (fontWeight_of_keyword_or_numeral rt).2
    (sourceToken ["weight"] "tokens/type.json" (.str "fontWeight") (.str "9007199254740993"))
    false "9007199254740993".data (by decide) (by decide) rfl
  have hround : toNumber ((if false = true then -1 else 1) *
      ((digitsToNat "9007199254740993".data : ℕ) : ℚ)) = .fin 9007199254740992 := by
    rw [hd]
    norm_num
    exact toNumber_tie
  refine ⟨hd, ?_, ?_, ?_⟩
  · intro rt
    rw [(hnum rt).1, hround]
  · intro rt
    rw [(hnum rt).2 rfl, hround]
  · intro h
    have := JSNumber.fin.inj h
    norm_num at this

/-- C11, amended: for each keyword of the fixed map the `figma/fontWeight` transform
and the font-weight branch of the formatter return the mapped integer (`normal` 400,
`medium` 500, `semibold` 600, `bold` 700); for a string of decimal digits, with or
without a minus sign, they return the binary64 rounding of the integer the digits
denote, which is that integer itself whenever it is below `2 ^ 53` (`450`, and also
`0`). -/
theorem C11_font_weight_values (rt : Runtime) :
    (∀ (tok : Token) (kw : String) (n : ℚ),
      (kw, n) ∈ [("normal", (400 : ℚ)), ("medium", 500), ("semibold", 600), ("bold", 700)] →
      tok.dollarValue = .str kw →
      figmaFontWeightTransform rt tok = .ok (.num (.fin n)) ∧
      (tok.dollarType = .str "fontWeight" → variableValue rt tok = .ok (.num (.fin n)))) ∧
    (∀ (tok : Token) (neg : Bool) (int : List Char), int ≠ [] →
      (∀ c ∈ int, isDecimalDigit c = true) →
      tok.dollarValue = .str (String.mk (numeralText neg int [])) →
      figmaFontWeightTransform rt tok =
        .ok (.num (toNumber ((if neg then -1 else 1) * (digitsToNat int : ℚ)))) ∧
      (tok.dollarType = .str "fontWeight" →
        variableValue rt tok =
          .ok (.num (toNumber ((if neg then -1 else 1) * (digitsToNat int : ℚ))))) ∧
      (digitsToNat int < 2 ^ 53 →
        toNumber ((if neg then -1 else 1) * (digitsToNat int : ℚ)) =
          .fin ((if neg then -1 else 1) * (digitsToNat int : ℚ)))) := by
  have h := fontWeight_of_keyword_or_numeral rt
  refine ⟨h.1, ?_⟩
  intro tok neg int hint hi hv
  have h2 := h.2 tok neg int hint hi hv
  refine ⟨h2.1, h2.2, ?_⟩
  intro hlt
  apply toNumber_dyadic _ (digitsToNat int) 0 hlt (by norm_num)
  cases neg <;> simp

theorem C11_font_weight_values_witness :
    figmaFontWeightTransform sampleRuntime
        (sourceToken ["weight"] "tokens/type.json" (.str "fontWeight") (.str "semibold")) =
      .ok (.num (.fin 600)) ∧
    variableValue sampleRuntime
        (sourceToken ["weight"] "tokens/type.json" (.str "fontWeight") (.str "450")) =
      .ok (.num (.fin 450)) ∧
    figmaFontWeightTransform sampleRuntime
        (sourceToken ["weight"] "tokens/type.json" (.str "fontWeight") (.str "0")) =
      .ok (.num (.fin 0)) := by
  refine ⟨?_, ?_, ?_⟩
  · exact ((C11_font_weight_values sampleRuntime).1 _ "semibold" 600 (by simp) rfl).1
  · have h := (C11_font_weight_values sampleRuntime).2
      (sourceToken ["weight"] "tokens/type.json" (.str "fontWeight") (.str "450"))
      false ['4', '5', '0'] (by simp) (by decide) rfl
    have hd : digitsToNat ['4', '5', '0'] = 450 := by decide
    rw [h.2.1 rfl, h.2.2 (by rw [hd]; norm_num), hd]
    norm_num
  · have h := (C11_font_weight_values sampleRuntime).2
      (sourceToken ["weight"] "tokens/type.json" (.str "fontWeight") (.str "0"))
      false ['0'] (by simp) (by decide) rfl
    have hd : digitsToNat ['0'] = 0 := by decide
    rw [h.1, h.2.2 (by rw [hd]; norm_num), hd]
    norm_num

/-- C12 fails on the code: the lookup `weightMap[value]` also finds the properties the
object literal inherits from `Object.prototype`.  For the value `constructor` the
transform, and the formatter branch, return the function `Object`, and for `toString`
the function `toString`; the operator `typeof` gives `function` for them, not
`number`. -/
theorem C12_font_weight_returns_function :
    (∀ rt, figmaFontWeightTransform rt
        (sourceToken ["weight"] "tokens/type.json" (.str "fontWeight") (.str "constructor")) =
      .ok (.fn "Object")) ∧
    (∀ rt, variableValue rt
        (sourceToken ["weight"] "tokens/type.json" (.str "fontWeight") (.str "constructor")) =
      .ok (.fn "Object")) ∧
    (∀ rt, figmaFontWeightTransform rt
        (sourceToken ["weight"] "tokens/type.json" (.str "fontWeight") (.str "toString")) =
      .ok (.fn "toString")) ∧
    JSValue.typeof (.fn "Object") = "function" ∧
    JSValue.typeof (.fn "Object") ≠ JSValue.typeof (.num .nan) := by
  refine ⟨fun _ => rfl, fun _ => rfl, fun _ => rfl, rfl, by decide⟩

/-! ## C13: the reference transform -/

theorem intercalate_go_data (sep : String) :
    ∀ (l : List String) (acc : String),
      (String.intercalate.go acc sep l).data =
        acc.data ++ (l.map (fun a => sep.data ++ a.data)).flatten := by
  intro l
  induction l with
  | nil => intro acc; simp [String.intercalate.go]
  | cons a as ih =>
    intro acc
    simp [String.intercalate.go, ih, String.data_append, List.append_assoc]

theorem splitOnChar_spec (sep : Char) :
    ∀ cs : List Char, ∃ a as, splitOnChar sep cs = a :: as ∧
      a ++ (as.map (fun p => sep :: p)).flatten = cs := by
  intro cs
  induction cs with
  | nil => exact ⟨[], [], rfl, rfl⟩
  | cons c cs ih =>
    obtain ⟨a, as, hsplit, hjoin⟩ := ih
    by_cases hc : c = sep
    · subst hc
      refine ⟨[], a :: as, ?_, ?_⟩
      · simp [splitOnChar, hsplit]
      · simp [hjoin]
    · refine ⟨c :: a, as, ?_, ?_⟩
      · simp [splitOnChar, hsplit, hc]
      · simp [hjoin]

/-- Splitting on `.` and joining with `.` gives the string back. -/
theorem jsJoin_jsSplit (p : String) : jsJoin (jsSplit p '.') "." = p := by
  obtain ⟨a, as, hsplit, hjoin⟩ := splitOnChar_spec '.' p.data
  have hdata : (jsJoin (jsSplit p '.') ".").data = p.data := by
    unfold jsJoin jsSplit
    rw [hsplit]
    simp only [List.map_cons, String.intercalate, intercalate_go_data, List.map_map]
    rw [← hjoin]
    congr 1
  cases p
  cases h : jsJoin (jsSplit _ '.') "."
  simp_all

theorem lookup_tokenSetEntries (tokenSet : List (String × Token)) (key : String) :
    (tokenSetEntries tokenSet).lookup key = (tokenSet.lookup key).map TreeEntry.token := by
  induction tokenSet with
  | nil => rfl
  | cons e rest ih =>
    obtain ⟨k, t⟩ := e
    simp only [tokenSetEntries, List.map_cons, List.lookup] at ih ⊢
    cases hk : key == k with
    | true => rfl
    | false => simpa [tokenSetEntries] using ih

/-- Off the inherited property names, the transform is the definition of the
specification: an entry under `p` gives its own raw value, no entry gives the raw
string back. -/
theorem figmaReferenceTransform_eq_spec (tokenSet : List (String × Token)) (tok : Token)
    (s : String) (hv : tok.original.dollarValue = .str s)
    (hkey : (tokenSet.lookup (jsSliceInner s)).isSome = true ∨
      (objectPrototypeGet (jsSliceInner s)).toBoolean = false) :
    figmaReferenceTransform (tokenSetEntries tokenSet) tok =
      .ok (referenceBySpec tokenSet s) := by
  unfold figmaReferenceTransform referenceBySpec
  simp only [hv, jsJoin_jsSplit, lookup_tokenSetEntries]
  have hp : (String.mk (List.drop 1 s.data).dropLast) = jsSliceInner s := rfl
  rw [hp]
  cases hl : tokenSet.lookup (jsSliceInner s) with
  | some entry => rfl
  | none =>
    rw [hl] at hkey
    simp only [Option.isSome_none, Bool.false_eq_true, false_or] at hkey
    simp [hkey, pure_eq_ok]

/-- C13 fails on the code: for the raw value `{constructor}` and a token set with
no entry `constructor`, the definition of the claim gives the raw string back, but the
lookup `SD.tokens[...]` finds the inherited property `constructor`, which has no
`original`, and the transform throws.  The same happens when the key names a group of
tokens.  Splitting on `.` and re-joining is the identity, and a reference to an entry
that is a token gives that entry's own raw value, as the claim says. -/
theorem C13_reference_inherited_key_throws :
    figmaReferenceTransform (tokenSetEntries [])
        (sourceToken ["alias"] "tokens/color.json" (.str "color") (.str "\x7bconstructor\x7d")) =
      .error .typeError ∧
    referenceBySpec [] "\x7bconstructor\x7d" = .str "\x7bconstructor\x7d" ∧
    figmaReferenceTransform
        (treeEntries [sourceToken ["color", "primary"] "tokens/color.json" (.str "color")
          (.str "#FF0000")])
        (sourceToken ["alias"] "tokens/color.json" (.str "color") (.str "\x7bcolor\x7d")) =
      .error .typeError ∧
    (∀ p : String, jsJoin (jsSplit p '.') "." = p) ∧
    figmaReferenceTransform
        (tokenSetEntries [("primary", sourceToken ["primary"] "tokens/color.json"
          (.str "color") (.str "#FF0000"))])
        (sourceToken ["alias"] "tokens/color.json" (.str "color") (.str "\x7bprimary\x7d")) =
      .ok (.str "#FF0000") := by
  refine ⟨?_, rfl, ?_, jsJoin_jsSplit, ?_⟩
  · unfold figmaReferenceTransform
    simp only [sourceToken, jsJoin_jsSplit]
    rfl
  · unfold figmaReferenceTransform
    simp only [sourceToken, jsJoin_jsSplit]
    rfl
  · unfold figmaReferenceTransform
    simp only [sourceToken, jsJoin_jsSplit]
    rfl

/-! ## C14 to C16: missing values and the identity branch -/

/-- C14: for a token whose value is `undefined`, `null` or the empty string the
`figma/dimension` transform returns `0`; it does not throw. -/
theorem C14_missing_dimension_is_zero (tok : Token)
    (h : tok.dollarValue = .undefined ∨ tok.dollarValue = .null ∨ tok.dollarValue = .str "") :
    figmaDimensionTransform tok = .ok (.num (.fin 0)) := by
  unfold figmaDimensionTransform
  rcases h with h | h | h <;> simp [h, JSValue.toBoolean, pure_eq_ok]

theorem C14_missing_dimension_is_zero_witness :
    figmaDimensionTransform
        (sourceToken ["space", "md"] "tokens/space.json" (.str "dimension") (.str "")) =
      .ok (.num (.fin 0)) :=
  C14_missing_dimension_is_zero
    (sourceToken ["space", "md"] "tokens/space.json" (.str "dimension") (.str ""))
    (Or.inr (Or.inr rfl))

/-- C15: for a token whose value is `undefined`, `null` or the empty string the
`figma/fontWeight` transform returns `400`. -/
theorem C15_missing_font_weight_is_400 (rt : Runtime) (tok : Token)
    (h : tok.dollarValue = .undefined ∨ tok.dollarValue = .null ∨ tok.dollarValue = .str "") :
    figmaFontWeightTransform rt tok = .ok (.num (.fin 400)) := by
  unfold figmaFontWeightTransform
  rcases h with h | h | h <;> simp [h, JSValue.toBoolean, pure_eq_ok]

theorem C15_missing_font_weight_is_400_witness :
    figmaFontWeightTransform sampleRuntime
        (sourceToken ["weight"] "tokens/type.json" (.str "fontWeight") .undefined) =
      .ok (.num (.fin 400)) :=
  C15_missing_font_weight_is_400 sampleRuntime
    (sourceToken ["weight"] "tokens/type.json" (.str "fontWeight") .undefined) (Or.inl rfl)

/-- C16: for a token whose `$type` is none of `color`, `dimension`, `fontWeight` (so
for `fontSize`, `lineHeight`, `letterSpacing`, `fontFamily`, an unknown or a missing
type) the formatter does not throw and the value of the variable is the token's
`$value`, unchanged. -/
theorem C16_other_types_pass_through (rt : Runtime) (tok : Token)
    (hc : tok.dollarType ≠ .str "color") (hd : tok.dollarType ≠ .str "dimension")
    (hf : tok.dollarType ≠ .str "fontWeight") :
    variableValue rt tok = .ok tok.dollarValue ∧
    buildVariable rt tok =
      .ok ⟨jsJoin tok.path "/", getFigmaVariableType tok.dollarType, tok.dollarValue⟩ := by
  have hne : ∀ lit : String, tok.dollarType ≠ .str lit →
      tok.dollarType.strictEqStr lit = false := by
    intro lit h
    cases ht : tok.dollarType with
    | str t =>
      have : t ≠ lit := fun e => h (by rw [ht, e])
      simpa [JSValue.strictEqStr] using this
    | _ => rfl
  have hval : variableValue rt tok = .ok tok.dollarValue := by
    unfold variableValue
    simp [hne _ hc, hne _ hd, hne _ hf, pure_eq_ok]
  refine ⟨hval, ?_⟩
  unfold buildVariable
  rw [hval]
  rfl

theorem C16_other_types_pass_through_witness :
    variableValue sampleRuntime
        (sourceToken ["font", "size"] "tokens/type.json" (.str "fontSize") (.str "16px")) =
      .ok (.str "16px") :=
  (C16_other_types_pass_through sampleRuntime
    (sourceToken ["font", "size"] "tokens/type.json" (.str "fontSize") (.str "16px"))
    (by simp [sourceToken]) (by simp [sourceToken]) (by simp [sourceToken])).1

/-! ## C17 and C18: the formatter against the transforms -/

/-- On a truthy value the dimension branch of the formatter and the `figma/dimension`
transform are the same computation; so are the font-weight branch and the
`figma/fontWeight` transform. -/
theorem variableValue_eq_transform_of_truthy (rt : Runtime) (tok : Token)
    (h : tok.dollarValue.toBoolean = true) :
    (tok.dollarType = .str "dimension" → variableValue rt tok = figmaDimensionTransform tok) ∧
    (tok.dollarType = .str "fontWeight" →
      variableValue rt tok = figmaFontWeightTransform rt tok) := by
  constructor
  · intro ht
    unfold variableValue figmaDimensionTransform
    simp only [ht, h]
    cases tok.dollarValue <;> simp [JSValue.strictEqStr, pure_eq_ok, throw_eq_error]
  · intro ht
    rw [variableValue_fontWeight rt tok ht, figmaFontWeightTransform_truthy rt tok h]

/-- C17 fails on the code: the formatter repeats the bodies of the two transforms
without their guard `if (!value)`.  For a dimension token with no value the transform
returns `0` while the formatter throws a `TypeError`; for the empty string the
transform returns `0` and the formatter `NaN`; for a font-weight token with no value
the transform returns `400` and the formatter `NaN`. -/
theorem C17_formatter_lacks_missing_value_guard :
    figmaDimensionTransform
        (sourceToken ["space", "md"] "tokens/space.json" (.str "dimension") .undefined) =
      .ok (.num (.fin 0)) ∧
    (∀ rt, variableValue rt
        (sourceToken ["space", "md"] "tokens/space.json" (.str "dimension") .undefined) =
      .error .typeError) ∧
    (∀ rt, format rt
        [sourceToken ["space", "md"] "tokens/space.json" (.str "dimension") .undefined] =
      .error .typeError) ∧
    figmaDimensionTransform
        (sourceToken ["space", "md"] "tokens/space.json" (.str "dimension") (.str "")) =
      .ok (.num (.fin 0)) ∧
    (∀ rt, variableValue rt
        (sourceToken ["space", "md"] "tokens/space.json" (.str "dimension") (.str "")) =
      .ok (.num .nan)) ∧
    (∀ rt, figmaFontWeightTransform rt
        (sourceToken ["weight"] "tokens/type.json" (.str "fontWeight") .undefined) =
      .ok (.num (.fin 400))) ∧
    (∀ rt, variableValue rt
        (sourceToken ["weight"] "tokens/type.json" (.str "fontWeight") .undefined) =
      .ok (.num .nan)) ∧
    JSValue.num (.fin 0) ≠ .num .nan ∧ JSValue.num (.fin 400) ≠ .num .nan := by
  refine ⟨rfl, fun _ => rfl, fun _ => rfl, rfl, fun _ => rfl, fun _ => rfl, fun _ => rfl,
    by simp, by simp⟩

/-- Removing the first `px` of `a ++ "px" ++ b`, when `a` holds no `px`, leaves
`a ++ b`. -/
theorem replaceFirst_px_first (a b : List Char) (h : ¬ ['p', 'x'] <:+: a) :
    replaceFirst (a ++ ['p', 'x'] ++ b) ['p', 'x'] [] = a ++ b := by
  induction a with
  | nil =>
    show replaceFirst ('p' :: 'x' :: b) ['p', 'x'] [] = b
    simp [replaceFirst, List.isPrefixOf]
  | cons c cs ih =>
    have hrest : ¬ ['p', 'x'] <:+: cs :=
      fun hin => h (List.infix_cons_iff.mpr (Or.inr hin))
    have hpre : List.isPrefixOf ['p', 'x'] (c :: (cs ++ ['p', 'x'] ++ b)) = false := by
      cases cs with
      | nil =>
        have : ('x' == 'p') = false := by decide
        simp [List.isPrefixOf, this]
      | cons d ds =>
        by_contra hne
        have htrue : List.isPrefixOf ['p', 'x'] (c :: (d :: ds ++ ['p', 'x'] ++ b)) = true := by
          simpa using hne
        simp only [List.cons_append, List.isPrefixOf, Bool.and_eq_true, beq_iff_eq,
          Bool.and_true] at htrue
        apply h
        rw [← htrue.1, ← htrue.2]
        exact ⟨[], ds, rfl⟩
    have hstep : replaceFirst (c :: (cs ++ ['p', 'x'] ++ b)) ['p', 'x'] [] =
        c :: replaceFirst (cs ++ ['p', 'x'] ++ b) ['p', 'x'] [] := by
      show (if List.isPrefixOf ['p', 'x'] (c :: (cs ++ ['p', 'x'] ++ b)) = true then _
        else _) = _
      rw [hpre]
      rfl
    have hcons : (c :: cs) ++ ['p', 'x'] ++ b = c :: (cs ++ ['p', 'x'] ++ b) := by simp
    rw [hcons, hstep, ih hrest]
    rfl

theorem dropFinalTwo_px (t : List Char) :
    dropFinalTwo (String.mk (t ++ ['p', 'x'])) = String.mk t := by
  unfold dropFinalTwo
  congr 1
  have h1 : (t ++ ['p', 'x']).dropLast = t ++ ['p'] := by
    have : t ++ ['p', 'x'] = (t ++ ['p']) ++ ['x'] := by simp
    rw [this, List.dropLast_concat]
  show ((t ++ ['p', 'x']).dropLast).dropLast = t
  rw [h1, List.dropLast_concat]

theorem parseFloat_12px : parseFloat "12px" = .fin 12 := by
  have h : parseFloat "12px" =
      toNumber ((if false = true then -1 else 1) * ((12 : ℕ) : ℚ) * (10 : ℚ) ^ (0 : ℤ)) :=
    parseFloat_body false '1' ['2', 'p', 'x'] (by decide) 12 0 (by decide)
  rw [h]
  norm_num
  exact toNumber_dyadic 12 12 0 (by norm_num) (by norm_num) (by norm_num)

/-- C18, as stated, fails: `replace('px', '')` removes the first `px`, not the last
two characters.  For `1px2px` the transform and the formatter parse `12px` and return
`12`, while the string without its final two characters, `1px2`, parses to `1`. -/
theorem C18_first_occurrence_counterexample :
    jsReplace "1px2px" "px" "" = "12px" ∧ dropFinalTwo "1px2px" = "1px2" ∧
    figmaDimensionTransform
        (sourceToken ["space", "md"] "tokens/space.json" (.str "dimension") (.str "1px2px")) =
      .ok (.num (.fin 12)) ∧
    (∀ rt, variableValue rt
        (sourceToken ["space", "md"] "tokens/space.json" (.str "dimension") (.str "1px2px")) =
      .ok (.num (.fin 12))) ∧
    parseFloat (dropFinalTwo "1px2px") = .fin 1 ∧ JSNumber.fin 12 ≠ .fin 1 := by
  have h1 : parseFloat "1px2" = .fin 1 := by
    have h : parseFloat "1px2" =
        toNumber ((if false = true then -1 else 1) * ((1 : ℕ) : ℚ) * (10 : ℚ) ^ (0 : ℤ)) :=
      parseFloat_body false '1' ['p', 'x', '2'] (by decide) 1 0 (by decide)
    rw [h]
    norm_num
    exact toNumber_dyadic 1 1 0 (by norm_num) (by norm_num) (by norm_num)
  have hrep : jsReplace "1px2px" "px" "" = "12px" := by decide
  have ht : figmaDimensionTransform
      (sourceToken ["space", "md"] "tokens/space.json" (.str "dimension") (.str "1px2px")) =
      .ok (.num (parseFloat (jsReplace "1px2px" "px" ""))) := rfl
  have hf : ∀ rt, variableValue rt
      (sourceToken ["space", "md"] "tokens/space.json" (.str "dimension") (.str "1px2px")) =
      .ok (.num (parseFloat (jsReplace "1px2px" "px" ""))) := fun _ => rfl
  refine ⟨hrep, by decide, ?_, ?_, ?_, ?_⟩
  · rw [ht, hrep, parseFloat_12px]
  · intro rt
    rw [hf rt, hrep, parseFloat_12px]
  · have hd : dropFinalTwo "1px2px" = "1px2" := by decide
    rw [hd, h1]
  · intro h
    have := JSNumber.fin.inj h
    norm_num at this

/-- C18, amended: the `figma/dimension` transform and the dimension branch of the
formatter remove the first `px` of the string and parse the rest as a floating-point
number: for a string `a ++ "px" ++ b` in which `a` holds no `px`, the result is the
parse of `a ++ b`.  For a string that ends in `px` and has no earlier `px` (`b`
empty), that is the string without its final two characters. -/
theorem C18_first_px_removed (rt : Runtime) (tok : Token) (a b : List Char)
    (hfirst : ¬ ['p', 'x'] <:+: a)
    (hv : tok.dollarValue = .str (String.mk (a ++ ['p', 'x'] ++ b))) :
    figmaDimensionTransform tok = .ok (.num (parseFloat (String.mk (a ++ b)))) ∧
    (tok.dollarType = .str "dimension" →
      variableValue rt tok = .ok (.num (parseFloat (String.mk (a ++ b))))) ∧
    (b = [] → String.mk (a ++ b) = dropFinalTwo (String.mk (a ++ ['p', 'x'] ++ b))) := by
  have hrep : jsReplace (String.mk (a ++ ['p', 'x'] ++ b)) "px" "" = String.mk (a ++ b) := by
    unfold jsReplace
    congr 1
    exact replaceFirst_px_first a b hfirst
  have htruthy : (JSValue.str (String.mk (a ++ ['p', 'x'] ++ b))).toBoolean = true := by
    simp [JSValue.toBoolean]
  refine ⟨?_, ?_, ?_⟩
  · unfold figmaDimensionTransform
    simp only [hv, htruthy, hrep]
    simp [pure_eq_ok]
  · intro ht
    unfold variableValue
    simp only [ht, hv, hrep]
    simp [JSValue.strictEqStr, pure_eq_ok]
  · intro hb
    subst hb
    simp only [List.append_nil]
    exact (dropFinalTwo_px a).symm

theorem C18_first_px_removed_witness :
    figmaDimensionTransform
        (sourceToken ["space", "md"] "tokens/space.json" (.str "dimension") (.str "1px2px")) =
      .ok (.num (parseFloat "12px")) ∧
    variableValue sampleRuntime
        (sourceToken ["space", "md"] "tokens/space.json" (.str "dimension") (.str "16px")) =
      .ok (.num (parseFloat "16")) :=
  ⟨(C18_first_px_removed sampleRuntime
      (sourceToken ["space", "md"] "tokens/space.json" (.str "dimension") (.str "1px2px"))
      ['1'] ['2', 'p', 'x'] (by decide) rfl).1,
   (C18_first_px_removed sampleRuntime
      (sourceToken ["space", "md"] "tokens/space.json" (.str "dimension") (.str "16px"))
      ['1', '6'] [] (by decide) rfl).2.1 rfl⟩

/-! ## C19: the order of the transforms -/

/-- C19, as stated, fails: in the list that `main` configures, `figma/reference` does
not come before any of the three type-specific transforms; it stands at index 3 and
they stand at 0, 1 and 2. -/
theorem C19_reference_not_first_counterexample :
    platformTransforms.indexOf "figma/reference" = 3 ∧
    platformTransforms.indexOf "figma/color" = 0 ∧
    platformTransforms.indexOf "figma/dimension" = 1 ∧
    platformTransforms.indexOf "figma/fontWeight" = 2 ∧
    ¬ (platformTransforms.indexOf "figma/reference" < platformTransforms.indexOf "figma/color") ∧
    ¬ (platformTransforms.indexOf "figma/reference" <
        platformTransforms.indexOf "figma/dimension") ∧
    ¬ (platformTransforms.indexOf "figma/reference" <
        platformTransforms.indexOf "figma/fontWeight") := by
  refine ⟨by decide, by decide, by decide, by decide, by decide, by decide, by decide⟩

/-- C19, amended: the list that `main` configures is the initial list with
`figma/reference` pushed onto its end, so `figma/reference` is its last entry and
comes after each of `figma/color`, `figma/dimension` and `figma/fontWeight`. -/
theorem C19_reference_transform_is_last :
    platformTransforms = configuredTransforms ++ ["figma/reference"] ∧
    platformTransforms =
      ["figma/color", "figma/dimension", "figma/fontWeight", "figma/reference"] ∧
    platformTransforms.getLast? = some "figma/reference" ∧
    platformTransforms.indexOf "figma/color" < platformTransforms.indexOf "figma/reference" ∧
    platformTransforms.indexOf "figma/dimension" <
      platformTransforms.indexOf "figma/reference" ∧
    platformTransforms.indexOf "figma/fontWeight" <
      platformTransforms.indexOf "figma/reference" := by
  refine ⟨rfl, rfl, by decide, by decide, by decide, by decide⟩

/-! ## C20: the type and the value of a variable -/

theorem buildVariable_value (rt : Runtime) (t : Token) (v : Variable)
    (h : buildVariable rt t = .ok v) : variableValue rt t = .ok v.value := by
  unfold buildVariable at h
  cases hval : variableValue rt t with
  | error e => rw [hval] at h; cases h
  | ok val =>
    rw [hval] at h
    cases h
    rfl

/-- A string that names no property of `Object.prototype` gives a number: the mapped
weight, or what `parseInt` reads. -/
theorem weightOrParseInt_string_number (rt : Runtime) (s : String)
    (hs : objectPrototypeGet s = .undefined) :
    ∃ n, weightOrParseInt rt (.str s) = .ok (.num n) := by
  have hget : (∃ q : ℚ, q ≠ 0 ∧ weightMapGet s = .num (.fin q)) ∨
      weightMapGet s = .undefined := by
    unfold weightMapGet weightMap
    simp only [List.lookup]
    cases h1 : s == "normal"
    · cases h2 : s == "medium"
      · cases h3 : s == "semibold"
        · cases h4 : s == "bold"
          · exact Or.inr hs
          · exact Or.inl ⟨700, by norm_num, rfl⟩
        · exact Or.inl ⟨600, by norm_num, rfl⟩
      · exact Or.inl ⟨500, by norm_num, rfl⟩
    · exact Or.inl ⟨400, by norm_num, rfl⟩
  rcases hget with ⟨q, hq, hg⟩ | hg
  · refine ⟨.fin q, ?_⟩
    simp only [weightOrParseInt, JSValue.toStr, pure_eq_ok, bind, Except.bind, hg,
      JSValue.toBoolean]
    simp [hq]
  · refine ⟨parseIntString s, ?_⟩
    simp only [weightOrParseInt, JSValue.toStr, pure_eq_ok, bind, Except.bind, hg,
      JSValue.toBoolean]
    simp

/-- C20, as stated, fails: a `fontSize` token with the value `16px` is emitted with
type `FLOAT` and the string `16px` as its value. -/
theorem C20_float_with_string_value_counterexample :
    (∀ rt, format rt
        [sourceToken ["font", "size"] "tokens/type.json" (.str "fontSize") (.str "16px")] =
      .ok (document [⟨"font/size", "FLOAT", .str "16px"⟩] [])) ∧
    JSValue.typeof (.str "16px") = "string" ∧
    JSValue.typeof (.str "16px") ≠ "number" := by
  refine ⟨fun _ => rfl, rfl, by decide⟩

/-- C20, amended: a variable built for a `dimension` token has type `FLOAT` and a
value of number type; so has one built for a `fontWeight` token whose value is a
string that names no property of `Object.prototype`; a variable built for a
`fontSize`, `lineHeight` or `letterSpacing` token has type `FLOAT` and carries the
token's `$value` unchanged, whatever its type. -/
theorem C20_float_value_by_type (rt : Runtime) (tok : Token) (v : Variable)
    (hb : buildVariable rt tok = .ok v) :
    (tok.dollarType = .str "dimension" → v.type = "FLOAT" ∧ v.value.typeof = "number") ∧
    (tok.dollarType = .str "fontWeight" → ∀ s, tok.dollarValue = .str s →
      objectPrototypeGet s = .undefined → v.type = "FLOAT" ∧ v.value.typeof = "number") ∧
    ((tok.dollarType = .str "fontSize" ∨ tok.dollarType = .str "lineHeight" ∨
        tok.dollarType = .str "letterSpacing") →
      v.type = "FLOAT" ∧ v.value = tok.dollarValue) := by
  have htype := buildVariable_type rt tok v hb
  have hval := buildVariable_value rt tok v hb
  refine ⟨?_, ?_, ?_⟩
  · intro ht
    refine ⟨by rw [htype, ht]; decide, ?_⟩
    unfold variableValue at hval
    simp only [ht] at hval
    cases hv : tok.dollarValue with
    | str s =>
      rw [hv] at hval
      simp only [JSValue.strictEqStr] at hval
      have := Except.ok.inj hval
      rw [← this]
      rfl
    | _ =>
      rw [hv] at hval
      simp [JSValue.strictEqStr, throw_eq_error] at hval
  · intro ht s hs hproto
    refine ⟨by rw [htype, ht]; decide, ?_⟩
    rw [variableValue_fontWeight rt tok ht, hs] at hval
    obtain ⟨n, hn⟩ := weightOrParseInt_string_number rt s hproto
    rw [hn] at hval
    have := Except.ok.inj hval
    rw [← this]
    rfl
  · intro ht
    have hvv : variableValue rt tok = .ok tok.dollarValue := by
      unfold variableValue
      rcases ht with ht | ht | ht <;> simp [ht, JSValue.strictEqStr, pure_eq_ok]
    rw [hvv] at hval
    refine ⟨?_, (Except.ok.inj hval).symm⟩
    rcases ht with ht | ht | ht <;> rw [htype, ht] <;> decide

theorem C20_float_value_by_type_witness :
    (⟨"space/md", "FLOAT", .num (parseFloat (jsReplace "16px" "px" ""))⟩ : Variable).type =
      "FLOAT" ∧
    (⟨"space/md", "FLOAT", .num (parseFloat (jsReplace "16px" "px" ""))⟩ : Variable).value.typeof =
      "number" :=
  (C20_float_value_by_type sampleRuntime
    (sourceToken ["space", "md"] "tokens/space.json" (.str "dimension") (.str "16px"))
    ⟨"space/md", "FLOAT", .num (parseFloat (jsReplace "16px" "px" ""))⟩ rfl).1 rfl

end FigmaGenerator
